import Mathlib

/-!
Shallow embedding of the Weekly Task Tracker (`src/app/weekly_tasks.py`).

Text is modelled as `List Char` (the ASCII fragment of Python `str`).
Python string methods (`strip`, `split`, `lower`, …) are reimplemented
faithfully for that fragment; the two regexes of the source
(`SENTENCE_SPLIT_RE` and the overlook-keyword substitution) are embedded
as explicit character scanners with Python `re` semantics (leftmost
match, ordered alternation, `\b` word boundaries).
-/

namespace WeeklyTasks

/-- Python whitespace (`str.split`/`str.strip` default set, ASCII fragment). -/
def isPySpace (c : Char) : Bool :=
  c == ' ' || c == '\t' || c == '\n' || c == '\x0d' || c == '\x0b' || c == '\x0c'

/-- `str.lower` (ASCII). -/
def pyLower (cs : List Char) : List Char := cs.map Char.toLower

/-- `str.upper` of a single character (ASCII), as used by `sentence[0].upper()`. -/
def pyUpperChar (c : Char) : Char := c.toUpper

/-- `str.lstrip()` (no arguments: strips whitespace). -/
def pyLstrip (cs : List Char) : List Char := cs.dropWhile isPySpace

/-- `str.rstrip()` (no arguments: strips whitespace). -/
def pyRstrip (cs : List Char) : List Char := (cs.reverse.dropWhile isPySpace).reverse

/-- `str.strip()` (no arguments: strips whitespace on both ends). -/
def pyStrip (cs : List Char) : List Char := pyLstrip (pyRstrip cs)

/-- `str.rstrip(chars)`: strips trailing characters belonging to `set`. -/
def pyRstripSet (cs : List Char) (set : List Char) : List Char :=
  (cs.reverse.dropWhile (fun c => set.contains c)).reverse

/-- Worker for `str.split()` (whitespace split, empty fields dropped).
`cur` holds the current word reversed. -/
def splitWsGo : List Char → List Char → List (List Char)
  | [], cur => if cur.isEmpty then [] else [cur.reverse]
  | c :: rest, cur =>
    if isPySpace c then
      if cur.isEmpty then splitWsGo rest [] else cur.reverse :: splitWsGo rest []
    else
      splitWsGo rest (c :: cur)

/-- `str.split()` with no arguments. -/
def pySplitWs (cs : List Char) : List (List Char) := splitWsGo cs []

/-- `s[:n]` on a string. -/
def pyTake (n : Nat) (cs : List Char) : List Char := cs.take n

/-- Does `hay` start with `needle`? -/
def leadsSeq : List Char → List Char → Bool
  | [], _ => true
  | _ :: _, [] => false
  | n :: ns, h :: hs => n == h && leadsSeq ns hs

/-- `needle in hay` for Python strings (substring containment). -/
def containsSeq (needle hay : List Char) : Bool :=
  match hay with
  | [] => needle.isEmpty
  | _ :: rest => leadsSeq needle hay || containsSeq needle rest

/-- `s.replace("Z", "+00:00")` as used on date filter arguments. -/
def replaceZ (cs : List Char) : List Char :=
  cs.flatMap fun c => if c == 'Z' then ( "+00:00".data ) else [c]

/-- Worker for `SENTENCE_SPLIT_RE.split`: the pattern `(?<=[.!?])\s+` cuts at
every whitespace character directly preceded by `.`, `!` or `?`; the rest of a
whitespace run stays as segment-leading whitespace and is removed by the
`strip` applied to every segment afterwards. `prev` is the previous character
of the original text. -/
def sentenceSplitGo : Option Char → List Char → List Char → List (List Char)
  | _, cur, [] => [cur.reverse]
  | prev, cur, c :: rest =>
    if (prev == some '.' || prev == some '!' || prev == some '?') && isPySpace c then
      cur.reverse :: sentenceSplitGo (some c) [] rest
    else
      sentenceSplitGo (some c) (c :: cur) rest

/-- `WeeklyTaskTracker._split_sentences`: regex split followed by per-segment
strip, dropping empty segments. -/
def splitSentences (text : List Char) : List (List Char) :=
  ((sentenceSplitGo none [] text).map pyStrip).filter (fun s => !s.isEmpty)

/-- The `ActivityType` enumeration of the source. -/
inductive ActivityType where
  | campaignExecution
  | productDesign
  | engineeringDelivery
  | trainingEnablement
  | opsCompliance
  | performanceReporting
  deriving DecidableEq, Repr

/-- `ActivityType.value` (the string value of each member). -/
def ActivityType.value : ActivityType → List Char
  | campaignExecution => "campaign_execution".data
  | productDesign => "product_design".data
  | engineeringDelivery => "engineering_delivery".data
  | trainingEnablement => "training_enablement".data
  | opsCompliance => "ops_compliance".data
  | performanceReporting => "performance_reporting".data

/-- `ActivityType(raw)`: enum lookup by value, `none` models the `ValueError`. -/
def activityTypeOfValue (s : List Char) : Option ActivityType :=
  if s = ( "campaign_execution".data ) then some .campaignExecution
  else if s = ( "product_design".data ) then some .productDesign
  else if s = ( "engineering_delivery".data ) then some .engineeringDelivery
  else if s = ( "training_enablement".data ) then some .trainingEnablement
  else if s = ( "ops_compliance".data ) then some .opsCompliance
  else if s = ( "performance_reporting".data ) then some .performanceReporting
  else none

/-- The action-verb set of `_shape_macro_task`. -/
def macroVerbs : List (List Char) :=
  [ "lead".data, "drive".data, "coordinate".data, "own".data, "ensure".data,
    "deliver".data, "ship".data, "validate".data, "plan".data, "oversee".data,
    "accelerate".data ]

/-- `WeeklyTaskTracker._shape_macro_task`. -/
def shapeMacroTask (sentence : List Char) : List Char :=
  let s := pyRstripSet (pyStrip sentence) ( ".!?".data )
  if s.isEmpty then []
  else
    let firstWord := (pySplitWs s).headD []
    let cased := match s with
      | [] => []
      | c :: r => pyUpperChar c :: r
    if macroVerbs.contains (pyLower firstWord) then cased ++ ['.']
    else ( "Drive ".data ) ++ cased ++ ['.']

/-- `WeeklyTaskTracker._generate_macro_tasks`. -/
def generateMacroTasks : List (List Char) → List (List Char)
  | [] => []
  | s :: rest =>
    if (pySplitWs s).length ≤ 3 then generateMacroTasks rest
    else
      let t := shapeMacroTask s
      if t.isEmpty then generateMacroTasks rest
      else t :: generateMacroTasks rest

/-- `OVERLOOK_KEYWORDS` (the containment-test list). -/
def overlookKeywords : List (List Char) :=
  [ "should".data, "need".data, "must".data, "pending".data, "blocked".data,
    "waiting".data, "awaiting".data, "unresolved".data, "delayed".data,
    "follow-up".data, "tie-back".data, "risk".data ]

/-- The alternatives of the keyword-stripping regex of
`_generate_overlooked_tasks`, in alternation order. -/
def subPatterns : List (List Char) :=
  [ "should".data, ( "shouldn".data ) ++ ['\'', 't'], "need".data, "needs".data,
    "must".data, ( "mustn".data ) ++ ['\'', 't'], "pending".data, "blocked".data,
    "waiting".data, "awaiting".data, "unresolved".data, "delayed".data,
    "risk".data, "follow-up".data, "follow up".data ]

/-- Python regex `\w` (ASCII fragment), for `\b` word boundaries. -/
def wordChar (c : Char) : Bool := c.isAlpha || c.isDigit || c == '_'

/-- Case-insensitive "text starts with pattern" (pattern is lowercase). -/
def ciLeads : List Char → List Char → Bool
  | [], _ => true
  | _ :: _, [] => false
  | a :: as, c :: cs => a == c.toLower && ciLeads as cs

/-- `\b` holds after a matched alternative iff the next character is absent
or is not a word character (every alternative ends in a word character). -/
def boundaryAfter : List Char → Bool
  | [] => true
  | c :: _ => !wordChar c

/-- Try the regex alternatives in order at the current position, returning the
length of the first alternative that matches with a trailing `\b`. -/
def tryPatterns (cs : List Char) : Option Nat :=
  subPatterns.findSome? fun p =>
    if ciLeads p cs && boundaryAfter (cs.drop p.length) then some p.length else none

/-- `\b` holds before the current position iff there is no previous character
or it is not a word character (every alternative starts with a word char). -/
def prevBoundary : Option Char → Bool
  | none => true
  | some p => !wordChar p

/-- Scanner for `re.sub(pattern, "", s, flags=IGNORECASE)`: leftmost matches,
matched text dropped, scanning resumes after each match. `fuel` only bounds
recursion; any `fuel ≥ cs.length` computes the substitution. -/
def subGo : Nat → Option Char → List Char → List Char
  | 0, _, cs => cs
  | _ + 1, _, [] => []
  | fuel + 1, prev, c :: rest =>
    if prevBoundary prev then
      match tryPatterns (c :: rest) with
      | some len =>
        subGo fuel (some (((c :: rest).take len).getLastD c)) ((c :: rest).drop len)
      | none => c :: subGo fuel (some c) rest
    else c :: subGo fuel (some c) rest

/-- The full keyword-stripping substitution applied to a sentence. -/
def regexStripKeywords (s : List Char) : List Char := subGo (s.length + 1) none s

/-- The loop body of `_generate_overlooked_tasks` over the sentence list. -/
def overlookGo : List (List Char) → List (List Char)
  | [] => []
  | s :: rest =>
    let lowered := pyLower s
    if overlookKeywords.any (fun kw => containsSeq kw lowered) then
      let cleaned := pyRstripSet (pyStrip (regexStripKeywords s)) ( ".!?".data )
      if cleaned.isEmpty then overlookGo rest
      else (( "Ensure follow-up on ".data ) ++ cleaned ++ ['.']) :: overlookGo rest
    else overlookGo rest

/-- `project or "this initiative"` (also used with other default strings). -/
def orDefault (project : Option (List Char)) (dflt : List Char) : List Char :=
  match project with
  | some p => if p.isEmpty then dflt else p
  | none => dflt

/-- `WeeklyTaskTracker._generate_overlooked_tasks`. -/
def generateOverlookedTasks (sentences : List (List Char)) (project : Option (List Char)) :
    List (List Char) :=
  let overrides := overlookGo sentences
  if overrides.isEmpty then
    [ ( "Confirm metrics, risks, and stakeholder alignment for ".data )
        ++ orDefault project ( "this initiative".data )
        ++ ( " before the next sync.".data ) ]
  else overrides

/-- Model of a Python `datetime`: its ISO calendar year and week (as consumed
by `_window_slug`) and an abstract monotone stamp giving the total order used
by comparisons and sorting. -/
structure PyDateTime where
  isoYear : Nat
  isoWeek : Nat
  stamp : Int
  deriving DecidableEq, Repr

/-- Decimal digit characters. -/
def digitChar : Nat → Char
  | 0 => '0'
  | 1 => '1'
  | 2 => '2'
  | 3 => '3'
  | 4 => '4'
  | 5 => '5'
  | 6 => '6'
  | 7 => '7'
  | 8 => '8'
  | 9 => '9'
  | _ => '0'

/-- Decimal printing worker, structurally recursive on its fuel. -/
def natDigitsGo : Nat → Nat → List Char
  | 0, _ => []
  | fuel + 1, n =>
    if n < 10 then [digitChar n]
    else natDigitsGo fuel (n / 10) ++ [digitChar (n % 10)]

/-- Decimal digits of a natural number (`f"{n:d}"`); `n + 1` fuel always
suffices because the argument at least halves each step. -/
def natDigits (n : Nat) : List Char := natDigitsGo (n + 1) n

/-- `f"{w:02d}"`: decimal digits left-padded with `0` to width 2. -/
def pad2 (n : Nat) : List Char :=
  if n < 10 then '0' :: natDigits n else natDigits n

/-- `WeeklyTaskTracker._normalize`: collapse whitespace runs, lowercase. -/
def pyNormalize (cs : List Char) : List Char :=
  pyLower (List.intercalate [' '] (pySplitWs cs))

/-- `(project or "general").strip().lower() or "general"`. -/
def projectKey (project : Option (List Char)) : List Char :=
  let base := orDefault project ( "general".data )
  let k := pyLower (pyStrip base)
  if k.isEmpty then ( "general".data ) else k

/-- `WeeklyTaskTracker._window_slug`. -/
def windowSlug (created : PyDateTime) (project : Option (List Char)) : List Char :=
  natDigits created.isoYear ++ ( "-W".data ) ++ pad2 created.isoWeek ++ [':']
    ++ projectKey project

/-- `WeeklyTaskTracker._seen_key`. -/
def seenKey (window : List Char) (task : List Char) : List Char :=
  window ++ ['|'] ++ pyNormalize task

/-- `WeeklyTaskSubmission` (the validated input record). -/
structure Submission where
  project : Option (List Char)
  context : Option (List Char)
  activityType : ActivityType
  update : List Char
  deriving DecidableEq, Repr

/-- `WeeklyTaskSummary` (the persisted record; `sid` is the generated id). -/
structure Summary where
  sid : List Char
  createdAt : PyDateTime
  project : Option (List Char)
  context : Option (List Char)
  activityType : ActivityType
  inputExcerpt : List Char
  generatedTasks : List (List Char)
  overlookedTasks : List (List Char)
  deriving DecidableEq, Repr

/-- The candidate loop of `process_update`: filter candidates through
`_record_new_task`, returning the accepted tasks and the grown seen-set. -/
def acceptNew (window : List Char) (seen : List (List Char)) :
    List (List Char) → List (List Char) × List (List Char)
  | [] => ([], seen)
  | c :: rest =>
    if seenKey window c ∈ seen then acceptNew window seen rest
    else
      let r := acceptNew window (seenKey window c :: seen) rest
      (c :: r.1, r.2)

/-- Derivation plus dedup of both task lists for one `process_update` call:
returns ((accepted generated, accepted overlooked), new seen-set). -/
def acceptedTasks (seen : List (List Char)) (window : List Char) (sub : Submission) :
    (List (List Char) × List (List Char)) × List (List Char) :=
  let text := pyStrip sub.update
  let sentences := splitSentences text
  let g := acceptNew window seen (generateMacroTasks sentences)
  let o := acceptNew window g.2 (generateOverlookedTasks sentences sub.project)
  ((g.1, o.1), o.2)

/-- The no-new-macro-tasks fallback sentence of `process_update`. -/
def generatedFallback : List Char :=
  ( "No new macro-level tasks detected beyond the items already tracked in the weekly tracker.".data )

/-- The overlooked-list fallback sentence of `process_update`. -/
def overlookedFallback (project : Option (List Char)) : List Char :=
  ( "Reconfirm risks and dependencies for ".data )
    ++ orDefault project ( "the initiative".data )
    ++ ( " if they change in future updates.".data )

/-- `WeeklyTaskTracker.process_update`. The current UTC time and the generated
uuid are effects of the caller and are passed explicitly; the tracker state is
the `_tasks_seen` set. Returns the summary and the new seen-set. -/
def processUpdate (seen : List (List Char)) (now : PyDateTime) (newId : List Char)
    (sub : Submission) : Summary × List (List Char) :=
  let text := pyStrip sub.update
  let window := windowSlug now sub.project
  let r := acceptedTasks seen window sub
  let generated := if r.1.1.isEmpty then [generatedFallback] else r.1.1
  let overlooked := if r.1.2.isEmpty then [overlookedFallback sub.project] else r.1.2
  ({ sid := newId
     createdAt := now
     project := sub.project
     context := sub.context
     activityType := sub.activityType
     inputExcerpt := pyTake 240 text
     generatedTasks := generated
     overlookedTasks := overlooked }, r.2)

/-- Lowercase hexadecimal digit characters (as produced by `json.dumps`). -/
def hexDigitChar : Nat → Char
  | 10 => 'a'
  | 11 => 'b'
  | 12 => 'c'
  | 13 => 'd'
  | 14 => 'e'
  | 15 => 'f'
  | n => digitChar n

/-- `json.dumps` escaping of one character (`ensure_ascii=False`): quote,
backslash and the shorthand control escapes, `\u00xx` for the remaining
control characters, everything else verbatim. -/
def escapeChar (c : Char) : List Char :=
  if c = '"' then ['\\', '"']
  else if c = '\\' then ['\\', '\\']
  else if c = '\n' then ['\\', 'n']
  else if c = '\r' then ['\\', 'r']
  else if c = '\t' then ['\\', 't']
  else if c = '\x08' then ['\\', 'b']
  else if c = '\x0c' then ['\\', 'f']
  else if c.toNat < 32 then
    ['\\', 'u', '0', '0', hexDigitChar (c.toNat / 16), hexDigitChar (c.toNat % 16)]
  else [c]

/-- `json.dumps` of a string (without the surrounding context). -/
def jsonDumpStr (cs : List Char) : List Char :=
  '"' :: cs.flatMap escapeChar ++ ['"']

/-- The `", ".join` of the encoded elements, as `json.dumps` produces it. -/
def jsonItemsEnc : List (List Char) → List Char
  | [] => []
  | [x] => jsonDumpStr x
  | x :: xs => jsonDumpStr x ++ ( ", ".data ) ++ jsonItemsEnc xs

/-- `json.dumps` of a list of strings (default `", "` separator). -/
def jsonDumpsList (l : List (List Char)) : List Char :=
  '[' :: (jsonItemsEnc l ++ [']'])

/-- JSON whitespace accepted by `json.loads`. -/
def jsonWs (c : Char) : Bool := c == ' ' || c == '\t' || c == '\n' || c == '\r'

/-- Value of a hexadecimal digit character. -/
def hexVal (c : Char) : Option Nat :=
  if '0' ≤ c ∧ c ≤ '9' then some (c.toNat - 48)
  else if 'a' ≤ c ∧ c ≤ 'f' then some (c.toNat - 87)
  else if 'A' ≤ c ∧ c ≤ 'F' then some (c.toNat - 55)
  else none

/-- Decode one short escape character of a JSON string. -/
def unescapeChar (e : Char) : Option Char :=
  if e = '"' then some '"'
  else if e = '\\' then some '\\'
  else if e = '/' then some '/'
  else if e = 'b' then some '\x08'
  else if e = 'f' then some '\x0c'
  else if e = 'n' then some '\n'
  else if e = 'r' then some '\r'
  else if e = 't' then some '\t'
  else none

/-- Parse the body of a JSON string after its opening quote, returning the
decoded string and the remaining input. Strict mode: raw control characters
are rejected. `fuel ≥` input length always suffices. -/
def parseJStrGo : Nat → List Char → Option (List Char × List Char)
  | 0, _ => none
  | _ + 1, [] => none
  | fuel + 1, c :: rest =>
    if c = '"' then some ([], rest)
    else if c = '\\' then
      match rest with
      | [] => none
      | e :: rest2 =>
        if e = 'u' then
          match rest2 with
          | h1 :: h2 :: h3 :: h4 :: rest3 =>
            match hexVal h1, hexVal h2, hexVal h3, hexVal h4 with
            | some a, some b, some c2, some d =>
              (parseJStrGo fuel rest3).map fun p =>
                (Char.ofNat (((a * 16 + b) * 16 + c2) * 16 + d) :: p.1, p.2)
            | _, _, _, _ => none
          | _ => none
        else
          match unescapeChar e with
          | some d => (parseJStrGo fuel rest2).map fun p => (d :: p.1, p.2)
          | none => none
    else if c.toNat < 32 then none
    else (parseJStrGo fuel rest).map fun p => (c :: p.1, p.2)

/-- Parse the comma-separated string elements of a JSON array, positioned at
the start of an element; returns the elements and the input after `]`. -/
def parseItemsGo : Nat → List Char → Option (List (List Char) × List Char)
  | 0, _ => none
  | fuel + 1, cs =>
    match cs with
    | '"' :: rest =>
      match parseJStrGo (fuel + 1) rest with
      | some (s, r) =>
        match r.dropWhile jsonWs with
        | ']' :: r2 => some ([s], r2)
        | ',' :: r2 =>
          (parseItemsGo fuel (r2.dropWhile jsonWs)).map fun p => (s :: p.1, p.2)
        | _ => none
      | none => none
    | _ => none

/-- `json.loads` restricted to the grammar the log columns use (a JSON array
of strings, with surrounding whitespace); `none` models `JSONDecodeError`. -/
def jsonLoadsArr (cs : List Char) : Option (List (List Char)) :=
  match cs.dropWhile jsonWs with
  | '[' :: rest =>
    let rest1 := rest.dropWhile jsonWs
    let parsed :=
      match rest1 with
      | ']' :: r => some (([] : List (List Char)), r)
      | _ => parseItemsGo (rest1.length + 1) rest1
    match parsed with
    | some (v, r) => if (r.dropWhile jsonWs).isEmpty then some v else none
    | none => none
  | _ => none

/-- `json.loads(row.get(column) or "[]")`. -/
def jsonLoadsTasks (cs : List Char) : Option (List (List Char)) :=
  jsonLoadsArr (if cs.isEmpty then ( "[]".data ) else cs)

/-- A log row: the eight column values of one CSV record, as strings
(`_append_log` writes them, `csv.DictReader` hands them back). -/
structure Row where
  timestamp : List Char
  rid : List Char
  project : List Char
  context : List Char
  activity : List Char
  excerpt : List Char
  generated : List Char
  overlooked : List Char
  deriving DecidableEq, Repr

/-- `WeeklyTaskTracker._append_log`: the row written for a summary. The
timestamp serialisation `datetime.isoformat` is abstracted as `fmt`. -/
def encodeRow (fmt : PyDateTime → List Char) (s : Summary) : Row :=
  { timestamp := fmt s.createdAt
    rid := s.sid
    project := s.project.getD []
    context := s.context.getD []
    activity := s.activityType.value
    excerpt := s.inputExcerpt
    generated := jsonDumpsList s.generatedTasks
    overlooked := jsonDumpsList s.overlookedTasks }

/-- `WeeklyTaskTracker._row_to_summary`; `pts` abstracts
`datetime.fromisoformat` (`none` models the `ValueError`). -/
def rowToSummary (pts : List Char → Option PyDateTime) (r : Row) : Option Summary :=
  match pts r.timestamp with
  | none => none
  | some created =>
    match jsonLoadsTasks r.generated with
    | none => none
    | some gen =>
      match jsonLoadsTasks r.overlooked with
      | none => none
      | some ovl =>
        let activity :=
          if r.activity.isEmpty then ActivityType.campaignExecution
          else
            match activityTypeOfValue r.activity with
            | some t => t
            | none => ActivityType.campaignExecution
        some { sid := r.rid
               createdAt := created
               project := if r.project.isEmpty then none else some r.project
               context := if r.context.isEmpty then none else some r.context
               activityType := activity
               inputExcerpt := r.excerpt
               generatedTasks := gen
               overlookedTasks := ovl }

/-- Stable descending insertion by creation time (model of
`rows.sort(key=..., reverse=True)`). -/
def insertDesc (x : Summary) : List Summary → List Summary
  | [] => [x]
  | y :: ys =>
    if y.createdAt.stamp < x.createdAt.stamp then x :: y :: ys else y :: insertDesc x ys

/-- Sort summaries newest-first. -/
def sortDesc : List Summary → List Summary
  | [] => []
  | x :: xs => insertDesc x (sortDesc xs)

/-- `WeeklyTaskTracker.history`: decode every row (skipping the malformed
ones), sort newest-first and truncate to `limit`. -/
def history (pts : List Char → Option PyDateTime) (limit : Nat) (rows : List Row) :
    List Summary :=
  (sortDesc (rows.filterMap (rowToSummary pts))).take limit

/-- The project filter predicate of `filter_entries` (`term` given lowered). -/
def projFilterPred (term : List Char) (e : Summary) : Bool :=
  match e.project with
  | some p => !p.isEmpty && containsSeq term (pyLower p)
  | none => false

/-- The keyword filter predicate of `filter_entries` (`term` given lowered). -/
def kwMatch (term : List Char) (e : Summary) : Bool :=
  (match e.context with
    | some c => !c.isEmpty && containsSeq term (pyLower c)
    | none => false)
  || (match e.project with
    | some p => !p.isEmpty && containsSeq term (pyLower p)
    | none => false)
  || (!e.inputExcerpt.isEmpty && containsSeq term (pyLower e.inputExcerpt))
  || e.generatedTasks.any (fun t => containsSeq term (pyLower t))
  || e.overlookedTasks.any (fun t => containsSeq term (pyLower t))

/-- The project-filter block of `filter_entries` (Python falsiness of
`None` and of the empty string modelled explicitly). -/
def projStage (project : Option (List Char)) (l : List Summary) : List Summary :=
  match project with
  | some p => if p.isEmpty then l else l.filter (projFilterPred (pyLower p))
  | none => l

/-- The `# Activity type filter` block of `filter_entries` (`elif` reached
only when the single type is falsy). -/
def activityStage (activity : Option (List Char))
    (activityTypes : Option (List (List Char))) (l : List Summary) : List Summary :=
  let singleGiven := match activity with
    | some a => !a.isEmpty
    | none => false
  if singleGiven then
    match activity with
    | some a =>
      match activityTypeOfValue a with
      | some t => l.filter (fun e => e.activityType = t)
      | none => l
    | none => l
  else
    match activityTypes with
    | some ats =>
      if ats.isEmpty then l
      else
        let valid := ats.filterMap activityTypeOfValue
        if valid.isEmpty then l else l.filter (fun e => valid.contains e.activityType)
    | none => l

/-- The `date_from` half of the `# Date range filter` block. -/
def dateFromStage (pts : List Char → Option PyDateTime) (dateFrom : Option (List Char))
    (l : List Summary) : List Summary :=
  match dateFrom with
  | some d =>
    if d.isEmpty then l
    else
      match pts (replaceZ d) with
      | some fd => l.filter (fun e => fd.stamp ≤ e.createdAt.stamp)
      | none => l
  | none => l

/-- The `date_to` half of the `# Date range filter` block. -/
def dateToStage (pts : List Char → Option PyDateTime) (dateTo : Option (List Char))
    (l : List Summary) : List Summary :=
  match dateTo with
  | some d =>
    if d.isEmpty then l
    else
      match pts (replaceZ d) with
      | some td => l.filter (fun e => e.createdAt.stamp ≤ td.stamp)
      | none => l
  | none => l

/-- The `# Keyword search` block of `filter_entries`. -/
def keywordStage (keyword : Option (List Char)) (l : List Summary) : List Summary :=
  match keyword with
  | some k => if k.isEmpty then l else l.filter (kwMatch (pyLower k))
  | none => l

/-- `filter_entries`: the source applies the five filter blocks in sequence
(`f1` … `f4`, then the keyword filter). `pts` abstracts
`datetime.fromisoformat`. -/
def filterEntries (pts : List Char → Option PyDateTime) (entries : List Summary)
    (project activity : Option (List Char)) (activityTypes : Option (List (List Char)))
    (dateFrom dateTo keyword : Option (List Char)) : List Summary :=
  keywordStage keyword
    (dateToStage pts dateTo
      (dateFromStage pts dateFrom
        (activityStage activity activityTypes
          (projStage project entries))))

end WeeklyTasks

namespace WeeklyTasks

example : pySplitWs ( "  a bc  d ".data ) = [ "a".data, "bc".data, "d".data ] := by decide
example : pyStrip ( "  ab c  ".data ) = ( "ab c".data ) := by decide
example : pyRstripSet ( "ab c.!?".data ) ( ".!?".data ) = ( "ab c".data ) := by decide
example : containsSeq ( "bc".data ) ( "abcd".data ) = true := by decide
example : containsSeq ( "bx".data ) ( "abcd".data ) = false := by decide
example : splitSentences ( "We go. Lead it!  Ok?x".data )
    = [ "We go.".data, "Lead it!".data, "Ok?x".data ] := by decide
example : replaceZ ( "aZb".data ) = ( "a+00:00b".data ) := by decide

example : shapeMacroTask ( "lead the effort now".data ) = ( "Lead the effort now.".data ) := by
  decide

example : shapeMacroTask ( "finish the effort now.".data )
    = ( "Drive Finish the effort now.".data ) := by decide

example : regexStripKeywords ( "We should follow-up on the vendor contract".data )
    = ( "We   on the vendor contract".data ) := by decide

example : generateOverlookedTasks
      (splitSentences ( "We should follow-up on the vendor contract. Lead the Q3 rollout across three regions.".data ))
      (some ( "Atlas".data ))
    = [ "Ensure follow-up on We   on the vendor contract.".data ] := by decide

example : generateMacroTasks
      (splitSentences ( "We should follow-up on the vendor contract. Lead the Q3 rollout across three regions.".data ))
    = [ "Drive We should follow-up on the vendor contract.".data,
        "Lead the Q3 rollout across three regions.".data ] := by decide

example : regexStripKeywords ( "mustn".data ++ ['\'', 't', ' '] ++ "shouldn".data
      ++ ['\'', 't', ' '] ++ "musts".data ) = ( "  musts".data ) := by decide

example : windowSlug ⟨2024, 5, 0⟩ (some ( " Atlas ".data )) = ( "2024-W05:atlas".data ) := by
  decide

example : windowSlug ⟨2024, 41, 0⟩ none = ( "2024-W41:general".data ) := by decide

example : pyNormalize ( "  A  b C ".data ) = ( "a b c".data ) := by decide

example :
    (processUpdate [] ⟨2025, 3, 0⟩ ( "id1".data )
        { project := some ( "Atlas".data ), context := none,
          activityType := .campaignExecution,
          update := ( "We should follow-up on the vendor contract. Lead the Q3 rollout across three regions.".data ) }).1.overlookedTasks
    = [ "Ensure follow-up on We   on the vendor contract.".data ] := by decide

example : jsonDumpsList [ "ab".data, "c".data ]
    = ( "[".data ) ++ ( "\"ab\", \"c\"]".data ) := by decide

example : jsonLoadsArr ( "[\"ab\", \"c\"]".data ) = some [ "ab".data, "c".data ] := by decide

example : jsonLoadsArr ( "not json".data ) = none := by decide

example : jsonLoadsArr (jsonDumpsList [ [ '\t', '"', '\\', '\x01' ] ])
    = some [ [ '\t', '"', '\\', '\x01' ] ] := by decide

example : jsonLoadsArr ( "[]".data ) = some [] := by decide

/-! ### Lemmas about the dedup loop -/

theorem acceptNew_seen_mono (w k : List Char) :
    ∀ (cands seen : List (List Char)), k ∈ seen → k ∈ (acceptNew w seen cands).2
  | [], _, hk => hk
  | c :: rest, seen, hk => by
    by_cases h : seenKey w c ∈ seen
    · simpa [acceptNew, h] using acceptNew_seen_mono w k rest seen hk
    · simpa [acceptNew, h] using
        acceptNew_seen_mono w k rest (seenKey w c :: seen) (List.mem_cons_of_mem _ hk)

theorem acceptNew_key_mem (w : List Char) :
    ∀ (cands seen : List (List Char)) (c : List Char), c ∈ cands →
      seenKey w c ∈ (acceptNew w seen cands).2
  | c0 :: rest, seen, c, hc => by
    rcases List.mem_cons.mp hc with hh | ht
    · subst hh
      by_cases h : seenKey w c ∈ seen
      · simpa [acceptNew, h] using acceptNew_seen_mono w (seenKey w c) rest seen h
      · simpa [acceptNew, h] using
          acceptNew_seen_mono w (seenKey w c) rest (seenKey w c :: seen)
            (List.mem_cons_self _ _)
    · by_cases h : seenKey w c0 ∈ seen
      · simpa [acceptNew, h] using acceptNew_key_mem w rest seen c ht
      · simpa [acceptNew, h] using acceptNew_key_mem w rest (seenKey w c0 :: seen) c ht

theorem acceptNew_all_seen (w : List Char) :
    ∀ (cands seen : List (List Char)), (∀ c ∈ cands, seenKey w c ∈ seen) →
      acceptNew w seen cands = ([], seen)
  | [], _, _ => rfl
  | c :: rest, seen, h => by
    have hc : seenKey w c ∈ seen := h c (List.mem_cons_self _ _)
    simpa [acceptNew, hc] using
      acceptNew_all_seen w rest seen (fun d hd => h d (List.mem_cons_of_mem _ hd))

theorem acceptNew_mem_src (w : List Char) :
    ∀ (cands seen : List (List Char)) (k : List Char), k ∈ (acceptNew w seen cands).2 →
      k ∈ seen ∨ ∃ c, c ∈ cands ∧ k = seenKey w c
  | [], _, k, hk => Or.inl hk
  | c :: rest, seen, k, hk => by
    by_cases h : seenKey w c ∈ seen
    · rcases acceptNew_mem_src w rest seen k (by simpa [acceptNew, h] using hk) with hs | ⟨d, hd, he⟩
      · exact Or.inl hs
      · exact Or.inr ⟨d, List.mem_cons_of_mem _ hd, he⟩
    · rcases acceptNew_mem_src w rest (seenKey w c :: seen) k
        (by simpa [acceptNew, h] using hk) with hs | ⟨d, hd, he⟩
      · rcases List.mem_cons.mp hs with he | hs
        · exact Or.inr ⟨c, List.mem_cons_self _ _, he⟩
        · exact Or.inl hs
      · exact Or.inr ⟨d, List.mem_cons_of_mem _ hd, he⟩

theorem seenKey_eq_iff (w a b : List Char) :
    seenKey w a = seenKey w b ↔ pyNormalize a = pyNormalize b := by
  constructor
  · intro h
    exact @List.append_cancel_left _ (w ++ ['|']) _ _
      (by simpa [seenKey, List.append_assoc] using h)
  · intro h
    simp [seenKey, h]

theorem acceptNew_congr2 (w1 w2 : List Char) :
    ∀ (cands s1 s2 : List (List Char)),
      (∀ t, seenKey w1 t ∈ s1 ↔ seenKey w2 t ∈ s2) →
      (acceptNew w1 s1 cands).1 = (acceptNew w2 s2 cands).1
        ∧ ∀ t, (seenKey w1 t ∈ (acceptNew w1 s1 cands).2
          ↔ seenKey w2 t ∈ (acceptNew w2 s2 cands).2)
  | [], s1, s2, h => ⟨rfl, h⟩
  | c :: rest, s1, s2, h => by
    by_cases hc : seenKey w1 c ∈ s1
    · have hc2 : seenKey w2 c ∈ s2 := (h c).mp hc
      have ih := acceptNew_congr2 w1 w2 rest s1 s2 h
      simpa [acceptNew, hc, hc2] using ih
    · have hc2 : seenKey w2 c ∉ s2 := fun hx => hc ((h c).mpr hx)
      have h' : ∀ t, seenKey w1 t ∈ seenKey w1 c :: s1 ↔ seenKey w2 t ∈ seenKey w2 c :: s2 := by
        intro t
        simp only [List.mem_cons]
        constructor
        · rintro (he | hs)
          · exact Or.inl ((seenKey_eq_iff w2 t c).mpr ((seenKey_eq_iff w1 t c).mp he))
          · exact Or.inr ((h t).mp hs)
        · rintro (he | hs)
          · exact Or.inl ((seenKey_eq_iff w1 t c).mpr ((seenKey_eq_iff w2 t c).mp he))
          · exact Or.inr ((h t).mpr hs)
      have ih := acceptNew_congr2 w1 w2 rest (seenKey w1 c :: s1) (seenKey w2 c :: s2) h'
      refine ⟨?_, ?_⟩
      · simpa [acceptNew, hc, hc2] using congrArg (List.cons c) ih.1
      · simpa [acceptNew, hc, hc2] using ih.2

/-- C2: two `process_update` calls with identical update text and project in
the same ISO week: the second call accepts no derived task at all (its
accepted generated and overlooked lists are both empty, so every derived task
is persisted by at most one of the two summaries), and the second summary's
`generated_tasks` is exactly the deterministic no-new-tasks fallback. -/
theorem C2_idempotent_within_window
    (seen : List (List Char)) (now1 now2 : PyDateTime) (id1 id2 : List Char)
    (sub1 sub2 : Submission)
    (hu : sub1.update = sub2.update) (hp : sub1.project = sub2.project)
    (hy : now1.isoYear = now2.isoYear) (hw : now1.isoWeek = now2.isoWeek) :
    (processUpdate (processUpdate seen now1 id1 sub1).2 now2 id2 sub2).1.generatedTasks
      = [generatedFallback]
    ∧ (acceptedTasks (processUpdate seen now1 id1 sub1).2
        (windowSlug now2 sub2.project) sub2).1 = ([], []) := by
  have hwnd : windowSlug now2 sub2.project = windowSlug now1 sub1.project := by
    unfold windowSlug
    rw [hy, hw, hp]
  have hseen : (processUpdate seen now1 id1 sub1).2
      = (acceptNew (windowSlug now1 sub1.project)
          (acceptNew (windowSlug now1 sub1.project) seen
            (generateMacroTasks (splitSentences (pyStrip sub1.update)))).2
          (generateOverlookedTasks (splitSentences (pyStrip sub1.update)) sub1.project)).2 :=
    rfl
  have hgen : ∀ c ∈ generateMacroTasks (splitSentences (pyStrip sub1.update)),
      seenKey (windowSlug now1 sub1.project) c ∈ (processUpdate seen now1 id1 sub1).2 := by
    intro c hc
    rw [hseen]
    exact acceptNew_seen_mono _ _ _ _ (acceptNew_key_mem _ _ _ _ hc)
  have hovl : ∀ c ∈ generateOverlookedTasks (splitSentences (pyStrip sub1.update)) sub1.project,
      seenKey (windowSlug now1 sub1.project) c ∈ (processUpdate seen now1 id1 sub1).2 := by
    intro c hc
    rw [hseen]
    exact acceptNew_key_mem _ _ _ _ hc
  have hacc : acceptedTasks (processUpdate seen now1 id1 sub1).2
      (windowSlug now2 sub2.project) sub2
      = (([], []), (processUpdate seen now1 id1 sub1).2) := by
    simp only [acceptedTasks]
    rw [hwnd, ← hu, ← hp, acceptNew_all_seen _ _ _ hgen, acceptNew_all_seen _ _ _ hovl]
  refine ⟨?_, by rw [hacc]⟩
  show (let text := pyStrip sub2.update
        let window := windowSlug now2 sub2.project
        let r := acceptedTasks (processUpdate seen now1 id1 sub1).2 window sub2
        (if (r.1.1).isEmpty then [generatedFallback] else r.1.1)) = [generatedFallback]
  simp only [hacc]
  rfl

/-- C4: for a submission whose update text has a non-whitespace character,
both task lists of the summary returned by `process_update` are non-empty
(the fallbacks are substituted when needed). -/
theorem C4_nonempty_output (seen : List (List Char)) (now : PyDateTime) (newId : List Char)
    (sub : Submission) (h : ∃ c ∈ sub.update, isPySpace c = false) :
    (processUpdate seen now newId sub).1.generatedTasks ≠ []
      ∧ (processUpdate seen now newId sub).1.overlookedTasks ≠ [] := by
  constructor <;>
  · simp only [processUpdate]
    split <;> simp_all

/-- Witness for C4 at a concrete submission. -/
theorem C4_nonempty_output_witness :
    (∃ c ∈ ( "Lead the big effort".data ), isPySpace c = false)
    ∧ ((processUpdate [] ⟨2025, 1, 0⟩ ( "i".data )
          { project := none, context := none, activityType := .campaignExecution,
            update := ( "Lead the big effort".data ) }).1.generatedTasks ≠ []
        ∧ (processUpdate [] ⟨2025, 1, 0⟩ ( "i".data )
          { project := none, context := none, activityType := .campaignExecution,
            update := ( "Lead the big effort".data ) }).1.overlookedTasks ≠ []) :=
  ⟨by decide, C4_nonempty_output [] ⟨2025, 1, 0⟩ ( "i".data )
    { project := none, context := none, activityType := .campaignExecution,
      update := ( "Lead the big effort".data ) } (by decide)⟩

/-- Witness for C2 at a concrete repeated submission. -/
theorem C2_idempotent_within_window_witness :
    (processUpdate
        (processUpdate [] ⟨2025, 3, 10⟩ ( "a".data )
          { project := some ( "Atlas".data ), context := none,
            activityType := .campaignExecution,
            update := ( "Lead the Q3 rollout across three regions.".data ) }).2
        ⟨2025, 3, 20⟩ ( "b".data )
        { project := some ( "Atlas".data ), context := none,
          activityType := .campaignExecution,
          update := ( "Lead the Q3 rollout across three regions.".data ) }).1.generatedTasks
      = [generatedFallback]
    ∧ (acceptedTasks
        (processUpdate [] ⟨2025, 3, 10⟩ ( "a".data )
          { project := some ( "Atlas".data ), context := none,
            activityType := .campaignExecution,
            update := ( "Lead the Q3 rollout across three regions.".data ) }).2
        (windowSlug ⟨2025, 3, 20⟩ (some ( "Atlas".data )))
        { project := some ( "Atlas".data ), context := none,
          activityType := .campaignExecution,
          update := ( "Lead the Q3 rollout across three regions.".data ) }).1 = ([], []) :=
  C2_idempotent_within_window [] ⟨2025, 3, 10⟩ ⟨2025, 3, 20⟩ ( "a".data ) ( "b".data )
    { project := some ( "Atlas".data ), context := none,
      activityType := .campaignExecution,
      update := ( "Lead the Q3 rollout across three regions.".data ) }
    { project := some ( "Atlas".data ), context := none,
      activityType := .campaignExecution,
      update := ( "Lead the Q3 rollout across three regions.".data ) }
    rfl rfl rfl rfl

/-- C1 fails as frozen: in the concrete scenario the substitution regex also
removes the keyword `follow-up` (it is one of the regex alternatives), so the
overlooked task is not the claimed string with only `should` removed. -/
theorem C1_counterexample :
    ( "Ensure follow-up on We follow-up on the vendor contract.".data )
      ∉ (processUpdate [] ⟨2025, 3, 0⟩ ( "id1".data )
          { project := some ( "Atlas".data ), context := none,
            activityType := .campaignExecution,
            update := ( "We should follow-up on the vendor contract. Lead the Q3 rollout across three regions.".data ) }).1.overlookedTasks := by
  decide

/-- C1 amended: in the concrete scenario (fresh empty log, project `Atlas`)
the summary has exactly one overlooked task,
`"Ensure follow-up on We   on the vendor contract."` — the regex strips both
`should` and `follow-up`, leaving the surrounding spaces — and its generated
tasks contain the macro task `"Lead the Q3 rollout across three regions."`
with the verb `lead` preserved and no `Drive ` prefix. -/
theorem C1_scenario_amended :
    (processUpdate [] ⟨2025, 3, 0⟩ ( "id1".data )
        { project := some ( "Atlas".data ), context := none,
          activityType := .campaignExecution,
          update := ( "We should follow-up on the vendor contract. Lead the Q3 rollout across three regions.".data ) }).1.overlookedTasks
      = [ "Ensure follow-up on We   on the vendor contract.".data ]
    ∧ ( "Lead the Q3 rollout across three regions.".data )
        ∈ (processUpdate [] ⟨2025, 3, 0⟩ ( "id1".data )
          { project := some ( "Atlas".data ), context := none,
            activityType := .campaignExecution,
            update := ( "We should follow-up on the vendor contract. Lead the Q3 rollout across three regions.".data ) }).1.generatedTasks := by
  decide

/-- A row whose timestamp does not parse, or whose task columns are not valid
JSON, decodes to `none`. -/
theorem rowToSummary_none (pts : List Char → Option PyDateTime) (r : Row)
    (h : pts r.timestamp = none ∨ jsonLoadsTasks r.generated = none
      ∨ jsonLoadsTasks r.overlooked = none) :
    rowToSummary pts r = none := by
  rcases h with h | h | h
  · simp [rowToSummary, h]
  · cases hts : pts r.timestamp <;> simp [rowToSummary, hts, h]
  · cases hts : pts r.timestamp <;> cases hg : jsonLoadsTasks r.generated <;>
      simp [rowToSummary, hts, hg, h]

/-- C7: a log row with an unparsable timestamp or invalid JSON in a task-list
column is skipped by the read: the decoded sequence is exactly the decoding of
the other rows, and `history` (for every limit) is unchanged by the presence
of the malformed row. -/
theorem C7_malformed_row_skipped (pts : List Char → Option PyDateTime)
    (pre post : List Row) (bad : Row) (limit : Nat)
    (h : pts bad.timestamp = none ∨ jsonLoadsTasks bad.generated = none
      ∨ jsonLoadsTasks bad.overlooked = none) :
    (pre ++ bad :: post).filterMap (rowToSummary pts)
      = pre.filterMap (rowToSummary pts) ++ post.filterMap (rowToSummary pts)
    ∧ history pts limit (pre ++ bad :: post) = history pts limit (pre ++ post) := by
  have hb := rowToSummary_none pts bad h
  constructor
  · simp [List.filterMap_append, hb]
  · unfold history
    rw [List.filterMap_append, List.filterMap_cons, hb, ← List.filterMap_append]

/-- Witness for C7: a row with an invalid JSON task column between two good
rows is dropped and the good rows survive. -/
theorem C7_malformed_row_skipped_witness :
    ([(⟨( "good".data ), ( "a".data ), [], [], [], [], ( "[]".data ), ( "[]".data )⟩ : Row)]
        ++ (⟨( "good".data ), ( "x".data ), [], [], [], [], ( "nope".data ), ( "[]".data )⟩ : Row)
        :: [(⟨( "good".data ), ( "b".data ), [], [], [], [], ( "[]".data ), ( "[]".data )⟩ : Row)]).filterMap
          (rowToSummary (fun s => if s = ( "good".data ) then some ⟨2024, 1, 0⟩ else none))
      = [(⟨( "good".data ), ( "a".data ), [], [], [], [], ( "[]".data ), ( "[]".data )⟩ : Row)].filterMap
          (rowToSummary (fun s => if s = ( "good".data ) then some ⟨2024, 1, 0⟩ else none))
        ++ [(⟨( "good".data ), ( "b".data ), [], [], [], [], ( "[]".data ), ( "[]".data )⟩ : Row)].filterMap
          (rowToSummary (fun s => if s = ( "good".data ) then some ⟨2024, 1, 0⟩ else none))
    ∧ history (fun s => if s = ( "good".data ) then some ⟨2024, 1, 0⟩ else none) 20
        ([(⟨( "good".data ), ( "a".data ), [], [], [], [], ( "[]".data ), ( "[]".data )⟩ : Row)]
          ++ (⟨( "good".data ), ( "x".data ), [], [], [], [], ( "nope".data ), ( "[]".data )⟩ : Row)
          :: [(⟨( "good".data ), ( "b".data ), [], [], [], [], ( "[]".data ), ( "[]".data )⟩ : Row)])
      = history (fun s => if s = ( "good".data ) then some ⟨2024, 1, 0⟩ else none) 20
        ([(⟨( "good".data ), ( "a".data ), [], [], [], [], ( "[]".data ), ( "[]".data )⟩ : Row)]
          ++ [(⟨( "good".data ), ( "b".data ), [], [], [], [], ( "[]".data ), ( "[]".data )⟩ : Row)]) :=
  C7_malformed_row_skipped (fun s => if s = ( "good".data ) then some ⟨2024, 1, 0⟩ else none)
    [(⟨( "good".data ), ( "a".data ), [], [], [], [], ( "[]".data ), ( "[]".data )⟩ : Row)]
    [(⟨( "good".data ), ( "b".data ), [], [], [], [], ( "[]".data ), ( "[]".data )⟩ : Row)]
    ⟨( "good".data ), ( "x".data ), [], [], [], [], ( "nope".data ), ( "[]".data )⟩ 20
    (Or.inr (Or.inl (by decide)))

/-- C10: a well-formed row whose activity column is empty or not a member of
the enumeration is not skipped: it decodes to a summary with activity type
defaulted to campaign-execution and all other fields preserved. -/
theorem C10_invalid_activity_defaults (pts : List Char → Option PyDateTime) (r : Row)
    (d : PyDateTime) (gen ovl : List (List Char))
    (hts : pts r.timestamp = some d)
    (hgen : jsonLoadsTasks r.generated = some gen)
    (hovl : jsonLoadsTasks r.overlooked = some ovl)
    (hact : activityTypeOfValue r.activity = none) :
    rowToSummary pts r = some
      { sid := r.rid
        createdAt := d
        project := if r.project.isEmpty then none else some r.project
        context := if r.context.isEmpty then none else some r.context
        activityType := .campaignExecution
        inputExcerpt := r.excerpt
        generatedTasks := gen
        overlookedTasks := ovl } := by
  simp only [rowToSummary, hts, hgen, hovl, hact, ite_self]

/-- Witness for C10 at a concrete row with activity value `bogus`. -/
theorem C10_invalid_activity_defaults_witness :
    rowToSummary (fun _ => some ⟨2024, 1, 0⟩)
      ⟨( "t".data ), ( "id".data ), ( "P".data ), [], ( "bogus".data ), ( "ex".data ),
        ( "[]".data ), ( "[]".data )⟩
      = some
        { sid := ( "id".data )
          createdAt := ⟨2024, 1, 0⟩
          project := if ( "P".data ).isEmpty then none else some ( "P".data )
          context := if ([] : List Char).isEmpty then none else some []
          activityType := .campaignExecution
          inputExcerpt := ( "ex".data )
          generatedTasks := []
          overlookedTasks := [] } :=
  C10_invalid_activity_defaults (fun _ => some ⟨2024, 1, 0⟩)
    ⟨( "t".data ), ( "id".data ), ( "P".data ), [], ( "bogus".data ), ( "ex".data ),
      ( "[]".data ), ( "[]".data )⟩
    ⟨2024, 1, 0⟩ [] [] rfl (by decide) (by decide) (by decide)

/-- C9: `filter_entries` treats an invalid single activity-type string and
unparsable date bounds by skipping those filters entirely: no entry is
excluded and no error is raised (the function stays total). -/
theorem C9_invalid_filters_skipped (pts : List Char → Option PyDateTime)
    (entries : List Summary) (a d1 d2 : List Char)
    (ha : activityTypeOfValue a = none)
    (h1 : pts (replaceZ d1) = none)
    (h2 : pts (replaceZ d2) = none) :
    filterEntries pts entries none (some a) none (some d1) (some d2) none = entries := by
  have hact : ∀ l : List Summary, activityStage (some a) none l = l := by
    intro l
    simp only [activityStage, ha, ite_self]
  have hfrom : ∀ l : List Summary, dateFromStage pts (some d1) l = l := by
    intro l
    simp only [dateFromStage, h1, ite_self]
  have hto : ∀ l : List Summary, dateToStage pts (some d2) l = l := by
    intro l
    simp only [dateToStage, h2, ite_self]
  unfold filterEntries
  rw [hact, hfrom, hto]
  rfl

/-- Witness for C9 with a bogus activity type and unparsable dates. -/
theorem C9_invalid_filters_skipped_witness :
    filterEntries (fun _ => none)
      [{ sid := ( "id".data ), createdAt := ⟨2024, 1, 0⟩, project := none, context := none,
         activityType := .productDesign, inputExcerpt := [], generatedTasks := [],
         overlookedTasks := [] }]
      none (some ( "bogus".data )) none (some ( "when".data )) (some ( "ever".data )) none
      = [{ sid := ( "id".data ), createdAt := ⟨2024, 1, 0⟩, project := none, context := none,
           activityType := .productDesign, inputExcerpt := [], generatedTasks := [],
           overlookedTasks := [] }] :=
  C9_invalid_filters_skipped (fun _ => none)
    [{ sid := ( "id".data ), createdAt := ⟨2024, 1, 0⟩, project := none, context := none,
       activityType := .productDesign, inputExcerpt := [], generatedTasks := [],
       overlookedTasks := [] }]
    ( "bogus".data ) ( "when".data ) ( "ever".data ) (by decide) rfl rfl

/-! ### Word-count lemmas for the macro-task derivation -/

theorem splitWsGo_all_ws :
    ∀ (t : List Char), (∀ c ∈ t, isPySpace c = true) →
      ∀ cur, splitWsGo t cur = if cur.isEmpty then [] else [cur.reverse]
  | [], _, cur => rfl
  | c :: rest, h, cur => by
    have hc : isPySpace c = true := h c (List.mem_cons_self _ _)
    have ih := splitWsGo_all_ws rest (fun d hd => h d (List.mem_cons_of_mem _ hd))
    by_cases hcur : cur.isEmpty
    · simp [splitWsGo, hc, hcur, ih]
    · simp [splitWsGo, hc, hcur, ih]

theorem splitWsGo_append_ws (t : List Char) (h : ∀ c ∈ t, isPySpace c = true) :
    ∀ (y : List Char) (cur : List Char), splitWsGo (y ++ t) cur = splitWsGo y cur
  | [], cur => by
    simp only [List.nil_append]
    rw [splitWsGo_all_ws t h cur]
    rfl
  | c :: y', cur => by
    by_cases hc : isPySpace c
    · by_cases hcur : cur.isEmpty <;>
        simp [splitWsGo, hc, hcur, splitWsGo_append_ws t h y']
    · simp [splitWsGo, hc, splitWsGo_append_ws t h y']

theorem splitWsGo_ws_prefix :
    ∀ (t : List Char), (∀ c ∈ t, isPySpace c = true) →
      ∀ (y : List Char), splitWsGo (t ++ y) [] = splitWsGo y []
  | [], _, _ => rfl
  | c :: rest, h, y => by
    have hc : isPySpace c = true := h c (List.mem_cons_self _ _)
    simpa [splitWsGo, hc] using
      splitWsGo_ws_prefix rest (fun d hd => h d (List.mem_cons_of_mem _ hd)) y

theorem pySplitWs_strip (s : List Char) : pySplitWs (pyStrip s) = pySplitWs s := by
  have hdecomp : s = pyRstrip s ++ (s.reverse.takeWhile isPySpace).reverse := by
    have h1 : (s.reverse.dropWhile isPySpace).reverse
        ++ (s.reverse.takeWhile isPySpace).reverse = s := by
      rw [← List.reverse_append, List.takeWhile_append_dropWhile, List.reverse_reverse]
    exact h1.symm
  have htws : ∀ c ∈ (s.reverse.takeWhile isPySpace).reverse, isPySpace c = true := by
    intro c hc
    exact List.mem_takeWhile_imp (List.mem_reverse.mp hc)
  have h1 : pySplitWs s = splitWsGo (pyRstrip s) [] := by
    conv_lhs => rw [pySplitWs, hdecomp]
    exact splitWsGo_append_ws _ htws _ _
  have hdecomp2 : pyRstrip s
      = (pyRstrip s).takeWhile isPySpace ++ pyStrip s := by
    rw [pyStrip, pyLstrip]
    exact (List.takeWhile_append_dropWhile ..).symm
  have hlws : ∀ c ∈ (pyRstrip s).takeWhile isPySpace, isPySpace c = true :=
    fun c hc => List.mem_takeWhile_imp hc
  rw [h1, hdecomp2, splitWsGo_ws_prefix _ hlws]
  rfl

theorem splitWsGo_no_ws :
    ∀ (cs : List Char), (∀ c ∈ cs, isPySpace c = false) →
      ∀ cur, splitWsGo cs cur
        = if cur.isEmpty && cs.isEmpty then [] else [cur.reverse ++ cs]
  | [], _, cur => by
    by_cases hcur : cur.isEmpty <;> simp [splitWsGo, hcur]
  | c :: rest, h, cur => by
    have hc : isPySpace c = false := h c (List.mem_cons_self _ _)
    have ih := splitWsGo_no_ws rest (fun d hd => h d (List.mem_cons_of_mem _ hd)) (c :: cur)
    simp only [splitWsGo, hc, Bool.false_eq_true, if_false, ih]
    simp

theorem rstripSet_nil_all (x P : List Char) (h : pyRstripSet x P = []) :
    ∀ c ∈ x, P.contains c = true := by
  intro c hc
  have h2 : x.reverse.dropWhile (fun c => P.contains c) = [] := by
    have := congrArg List.reverse h
    simpa [pyRstripSet] using this
  exact List.dropWhile_eq_nil_iff.mp h2 c (List.mem_reverse.mpr hc)

theorem punct_not_space (c : Char) (h : ( ".!?".data ).contains c = true) :
    isPySpace c = false := by
  have : c ∈ ( ".!?".data ) := by simpa using h
  have : c = '.' ∨ c = '!' ∨ c = '?' := by simpa using this
  rcases this with h | h | h <;> subst h <;> decide

theorem rstrip_ne_nil (s : List Char) (h : 3 < (pySplitWs s).length) :
    pyRstripSet (pyStrip s) ( ".!?".data ) ≠ [] := by
  intro hnil
  have hall : ∀ c ∈ pyStrip s, isPySpace c = false := fun c hc =>
    punct_not_space c (rstripSet_nil_all _ _ hnil c hc)
  have hle : (pySplitWs (pyStrip s)).length ≤ 1 := by
    rw [pySplitWs, splitWsGo_no_ws (pyStrip s) hall []]
    split <;> simp
  rw [pySplitWs_strip] at hle
  omega

theorem shape_isEmpty_false (s : List Char) (h : 3 < (pySplitWs s).length) :
    (shapeMacroTask s).isEmpty = false := by
  cases he : pyRstripSet (pyStrip s) ( ".!?".data ) with
  | nil => exact absurd he (rstrip_ne_nil s h)
  | cons a l =>
    rw [shapeMacroTask]
    simp only [he, List.isEmpty_cons, Bool.false_eq_true, if_false]
    split <;> simp

/-- The macro-task derivation in the words of the specification: keep exactly
the sentences with more than three words; trim each kept sentence (surrounding
whitespace and trailing `.!?` punctuation); if its first word, lowercased, is
one of the fixed action verbs the capitalized sentence gets a trailing period,
otherwise it is additionally prefixed with `"Drive "`. -/
def specMacroTask (s : List Char) : List Char :=
  let t := pyRstripSet (pyStrip s) ( ".!?".data )
  let cased := match t with
    | [] => []
    | c :: r => pyUpperChar c :: r
  if macroVerbs.contains (pyLower ((pySplitWs t).headD [])) then cased ++ ['.']
  else ( "Drive ".data ) ++ cased ++ ['.']

/-- Spec-side macro-task list (refinement target for C6). -/
def specMacroTasks (sentences : List (List Char)) : List (List Char) :=
  (sentences.filter fun s => decide (3 < (pySplitWs s).length)).map specMacroTask

/-- C6: for every sentence list, `_generate_macro_tasks` computes exactly the
specification's macro-task list: the sentences with more than three words, in
order, each shaped by trimming, capitalization and the action-verb rule. -/
theorem C6_macro_derivation_spec :
    ∀ sentences, generateMacroTasks sentences = specMacroTasks sentences
  | [] => rfl
  | s :: rest => by
    by_cases h : (pySplitWs s).length ≤ 3
    · have h3 : ¬ (3 < (pySplitWs s).length) := by omega
      simp only [generateMacroTasks, if_pos h, specMacroTasks, List.filter_cons,
        decide_eq_true_eq, h3, if_false]
      exact C6_macro_derivation_spec rest
    · have h3 : 3 < (pySplitWs s).length := by omega
      have hsh := shape_isEmpty_false s h3
      have hshape : shapeMacroTask s = specMacroTask s := by
        cases he : pyRstripSet (pyStrip s) ( ".!?".data ) with
        | nil => exact absurd he (rstrip_ne_nil s h3)
        | cons a l =>
          rw [shapeMacroTask, specMacroTask]
          simp only [he]
          rfl
      simp only [generateMacroTasks, if_neg h, hsh, Bool.false_eq_true, if_false,
        specMacroTasks, List.filter_cons, decide_eq_true_eq, h3, if_true, List.map_cons]
      rw [hshape]
      exact congrArg _ (C6_macro_derivation_spec rest)

/-! ### Filter composition (C8) -/

/-- Spec-side project part: an absent term excludes nothing; a present term
is a case-insensitive substring match on the project. -/
def specProjPart (projTerm : Option (List Char)) (e : Summary) : Bool :=
  match projTerm with
  | none => true
  | some p =>
    match e.project with
    | some q => containsSeq (pyLower p) (pyLower q)
    | none => false

/-- Spec-side lower date bound: inclusive, absent bound excludes nothing. -/
def specFromPart (fromD : Option PyDateTime) (e : Summary) : Bool :=
  match fromD with
  | none => true
  | some T => T.stamp ≤ e.createdAt.stamp

/-- Spec-side upper date bound: inclusive, absent bound excludes nothing. -/
def specToPart (toD : Option PyDateTime) (e : Summary) : Bool :=
  match toD with
  | none => true
  | some T => e.createdAt.stamp ≤ T.stamp

/-- Spec-side keyword part: an absent keyword excludes nothing; a present one
matches case-insensitively against context, project, excerpt, or any
generated/overlooked task text. -/
def specKwPart (kwTerm : Option (List Char)) (e : Summary) : Bool :=
  match kwTerm with
  | none => true
  | some k =>
    (match e.context with
      | some c => containsSeq (pyLower k) (pyLower c)
      | none => false)
    || (match e.project with
      | some q => containsSeq (pyLower k) (pyLower q)
      | none => false)
    || containsSeq (pyLower k) (pyLower e.inputExcerpt)
    || e.generatedTasks.any (fun t => containsSeq (pyLower k) (pyLower t))
    || e.overlookedTasks.any (fun t => containsSeq (pyLower k) (pyLower t))

/-- The composed filter in the words of the specification, with every filter
independently optional. -/
def specCompositePred (projTerm kwTerm : Option (List Char))
    (fromD toD : Option PyDateTime) (e : Summary) : Bool :=
  specProjPart projTerm e && specFromPart fromD e && specToPart toD e
    && specKwPart kwTerm e

/-- Code-side project part: the predicate the project stage filters by when
the term is present. -/
def projPartCode (projTerm : Option (List Char)) (e : Summary) : Bool :=
  match projTerm with
  | none => true
  | some p => projFilterPred (pyLower p) e

/-- Code-side keyword part: the predicate the keyword stage filters by when
the keyword is present. -/
def kwPartCode (kwTerm : Option (List Char)) (e : Summary) : Bool :=
  match kwTerm with
  | none => true
  | some k => kwMatch (pyLower k) e

theorem truthy_contains {t : List Char} (ht : t.isEmpty = false) (x : List Char) :
    (!x.isEmpty && containsSeq t (pyLower x)) = containsSeq t (pyLower x) := by
  cases x with
  | nil =>
    show (!true && containsSeq t []) = containsSeq t []
    show false = containsSeq t []
    show false = t.isEmpty
    exact ht.symm
  | cons a l => rfl

theorem lower_isEmpty_false {t : List Char} (h : t ≠ []) : (pyLower t).isEmpty = false := by
  cases t with
  | nil => exact absurd rfl h
  | cons a l => rfl

theorem activityStage_skip (l : List Summary) : activityStage none none l = l := rfl

theorem projStage_eq (projTerm : Option (List Char))
    (hp : ∀ p, projTerm = some p → p ≠ []) (l : List Summary) :
    projStage projTerm l = l.filter (projPartCode projTerm) := by
  rcases projTerm with _ | p
  · exact (List.filter_true l).symm
  · have he : p.isEmpty = false := by
      cases p with
      | nil => exact absurd rfl (hp [] rfl)
      | cons a t => rfl
    simp only [projStage, he, Bool.false_eq_true, if_false]
    rfl

theorem dateFromStage_eq (pts : List Char → Option PyDateTime)
    (dFrom : Option (List Char)) (fromD : Option PyDateTime)
    (hdf : ∀ d, dFrom = some d → d ≠ [] ∧ pts (replaceZ d) = fromD)
    (hdfn : dFrom = none → fromD = none) (l : List Summary) :
    dateFromStage pts dFrom l = l.filter (specFromPart fromD) := by
  rcases dFrom with _ | d
  · rw [hdfn rfl]
    exact (List.filter_true l).symm
  · obtain ⟨hne, hparse⟩ := hdf d rfl
    have he : d.isEmpty = false := by
      cases d with
      | nil => exact absurd rfl hne
      | cons a t => rfl
    rcases fromD with _ | T
    · simp only [dateFromStage, he, Bool.false_eq_true, if_false, hparse]
      exact (List.filter_true l).symm
    · simp only [dateFromStage, he, Bool.false_eq_true, if_false, hparse]
      rfl

theorem dateToStage_eq (pts : List Char → Option PyDateTime)
    (dTo : Option (List Char)) (toD : Option PyDateTime)
    (hdt : ∀ d, dTo = some d → d ≠ [] ∧ pts (replaceZ d) = toD)
    (hdtn : dTo = none → toD = none) (l : List Summary) :
    dateToStage pts dTo l = l.filter (specToPart toD) := by
  rcases dTo with _ | d
  · rw [hdtn rfl]
    exact (List.filter_true l).symm
  · obtain ⟨hne, hparse⟩ := hdt d rfl
    have he : d.isEmpty = false := by
      cases d with
      | nil => exact absurd rfl hne
      | cons a t => rfl
    rcases toD with _ | T
    · simp only [dateToStage, he, Bool.false_eq_true, if_false, hparse]
      exact (List.filter_true l).symm
    · simp only [dateToStage, he, Bool.false_eq_true, if_false, hparse]
      rfl

theorem keywordStage_eq (kwTerm : Option (List Char))
    (hk : ∀ k, kwTerm = some k → k ≠ []) (l : List Summary) :
    keywordStage kwTerm l = l.filter (kwPartCode kwTerm) := by
  rcases kwTerm with _ | k
  · exact (List.filter_true l).symm
  · have he : k.isEmpty = false := by
      cases k with
      | nil => exact absurd rfl (hk [] rfl)
      | cons a t => rfl
    simp only [keywordStage, he, Bool.false_eq_true, if_false]
    rfl

theorem projPart_spec (projTerm : Option (List Char))
    (hp : ∀ p, projTerm = some p → p ≠ []) (e : Summary) :
    projPartCode projTerm e = specProjPart projTerm e := by
  rcases projTerm with _ | p
  · rfl
  · have hp0 := lower_isEmpty_false (hp p rfl)
    rcases hq : e.project with _ | q
    · simp [projPartCode, specProjPart, projFilterPred, hq]
    · simp [projPartCode, specProjPart, projFilterPred, hq, truthy_contains hp0]

theorem kwPart_spec (kwTerm : Option (List Char))
    (hk : ∀ k, kwTerm = some k → k ≠ []) (e : Summary) :
    kwPartCode kwTerm e = specKwPart kwTerm e := by
  rcases kwTerm with _ | k
  · rfl
  · have hk0 := lower_isEmpty_false (hk k rfl)
    rcases hc : e.context with _ | c <;> rcases hq : e.project with _ | q <;>
      simp [kwPartCode, specKwPart, kwMatch, hc, hq, truthy_contains hk0]

/-- C8: with each of the project, date-from, date-to and keyword filters
independently optional (a present project/keyword term is non-empty; a
present date string is non-empty and its parse result is the corresponding
bound, absent or unparsable bounds filtering nothing), `filter_entries`
returns exactly the entries satisfying the specification's composite
predicate: case-insensitive substring project match, `created_at` within the
inclusive present bounds, and the case-insensitive keyword match over
context, project, excerpt and both task lists. In particular, filtering by
`project="Acme"` and `date_from=T` alone returns exactly the entries whose
project contains `acme` case-insensitively and whose timestamp is `≥ T`. -/
theorem C8_filter_composition (pts : List Char → Option PyDateTime)
    (entries : List Summary)
    (projTerm dFrom dTo kwTerm : Option (List Char))
    (fromD toD : Option PyDateTime)
    (hp : ∀ p, projTerm = some p → p ≠ [])
    (hk : ∀ k, kwTerm = some k → k ≠ [])
    (hdf : ∀ d, dFrom = some d → d ≠ [] ∧ pts (replaceZ d) = fromD)
    (hdfn : dFrom = none → fromD = none)
    (hdt : ∀ d, dTo = some d → d ≠ [] ∧ pts (replaceZ d) = toD)
    (hdtn : dTo = none → toD = none) :
    filterEntries pts entries projTerm none none dFrom dTo kwTerm
      = entries.filter (specCompositePred projTerm kwTerm fromD toD) := by
  unfold filterEntries
  rw [projStage_eq projTerm hp, activityStage_skip,
    dateFromStage_eq pts dFrom fromD hdf hdfn, dateToStage_eq pts dTo toD hdt hdtn,
    keywordStage_eq kwTerm hk]
  simp only [List.filter_filter]
  refine List.filter_congr ?_
  intro e _
  simp only [projPart_spec projTerm hp e, kwPart_spec kwTerm hk e]
  simp [specCompositePred, Bool.and_assoc, Bool.and_comm, Bool.and_left_comm]

/-- Witness for C8 at the claim's headline case: filtering a concrete entry
list by project `Acme` and `date_from` alone (keyword and `date_to` absent). -/
theorem C8_filter_composition_witness :
    filterEntries (fun s => if s = ( "F".data ) then some ⟨2024, 1, 3⟩ else none)
      [{ sid := ( "1".data ), createdAt := ⟨2024, 1, 5⟩, project := some ( "Acme Corp".data ),
         context := none, activityType := .campaignExecution,
         inputExcerpt := ( "Lead the x".data ), generatedTasks := [], overlookedTasks := [] }]
      (some ( "Acme".data )) none none (some ( "F".data )) none none
      = [{ sid := ( "1".data ), createdAt := ⟨2024, 1, 5⟩, project := some ( "Acme Corp".data ),
           context := none, activityType := .campaignExecution,
           inputExcerpt := ( "Lead the x".data ), generatedTasks := [],
           overlookedTasks := [] }].filter
          (specCompositePred (some ( "Acme".data )) none (some ⟨2024, 1, 3⟩) none) :=
  C8_filter_composition (fun s => if s = ( "F".data ) then some ⟨2024, 1, 3⟩ else none)
    [{ sid := ( "1".data ), createdAt := ⟨2024, 1, 5⟩, project := some ( "Acme Corp".data ),
       context := none, activityType := .campaignExecution,
       inputExcerpt := ( "Lead the x".data ), generatedTasks := [], overlookedTasks := [] }]
    (some ( "Acme".data )) (some ( "F".data )) none none
    (some ⟨2024, 1, 3⟩) none
    (fun p h => by cases h; decide)
    (fun k h => nomatch h)
    (fun d h => by cases h; exact ⟨by decide, by decide⟩)
    (fun h => nomatch h)
    (fun d h => nomatch h)
    (fun _ => rfl)

/-! ### Window-slug injectivity (C3) -/

theorem digitChar_isDigit {n : Nat} (h : n < 10) : (digitChar n).isDigit = true := by
  interval_cases n <;> decide

theorem digitChar_toNat {n : Nat} (h : n < 10) : (digitChar n).toNat = 48 + n := by
  interval_cases n <;> decide

theorem natDigitsGo_digits :
    ∀ (fuel n : Nat), ∀ c ∈ natDigitsGo fuel n, c.isDigit = true
  | 0, _, c, hc => absurd hc (List.not_mem_nil c)
  | fuel + 1, n, c, hc => by
    by_cases h : n < 10
    · simp only [natDigitsGo, if_pos h, List.mem_singleton] at hc
      subst hc
      exact digitChar_isDigit h
    · simp only [natDigitsGo, if_neg h, List.mem_append, List.mem_singleton] at hc
      rcases hc with hc | hc
      · exact natDigitsGo_digits fuel (n / 10) c hc
      · subst hc
        exact digitChar_isDigit (Nat.mod_lt n (by omega))

theorem natDigits_digits (n : Nat) : ∀ c ∈ natDigits n, c.isDigit = true :=
  natDigitsGo_digits (n + 1) n

/-- Numeric value of a digit string. -/
def digitsVal (l : List Char) : Nat := l.foldl (fun a c => 10 * a + (c.toNat - 48)) 0

theorem digitsVal_foldl (init : Nat) :
    ∀ (xs : List Char) (c : Char),
      (xs ++ [c]).foldl (fun a c => 10 * a + (c.toNat - 48)) init
        = 10 * (xs.foldl (fun a c => 10 * a + (c.toNat - 48)) init) + (c.toNat - 48) := by
  intro xs c
  rw [List.foldl_append]
  rfl

theorem natDigitsGo_val : ∀ (fuel n : Nat), n < fuel → digitsVal (natDigitsGo fuel n) = n
  | 0, n, h => absurd h (Nat.not_lt_zero n)
  | fuel + 1, n, h => by
    by_cases h10 : n < 10
    · simp only [natDigitsGo, if_pos h10]
      show 10 * 0 + ((digitChar n).toNat - 48) = n
      rw [digitChar_toNat h10]
      omega
    · have hdiv : n / 10 < fuel := by
        have := Nat.div_lt_self (by omega : 0 < n) (by omega : 1 < 10)
        omega
      simp only [natDigitsGo, if_neg h10, digitsVal, digitsVal_foldl]
      have ih : digitsVal (natDigitsGo fuel (n / 10)) = n / 10 := natDigitsGo_val fuel (n / 10) hdiv
      rw [show List.foldl (fun a c => 10 * a + (c.toNat - 48)) 0 (natDigitsGo fuel (n / 10))
          = n / 10 from ih]
      rw [digitChar_toNat (Nat.mod_lt n (by omega))]
      omega

theorem digitsVal_natDigits (n : Nat) : digitsVal (natDigits n) = n :=
  natDigitsGo_val (n + 1) n (Nat.lt_succ_self n)

theorem natDigits_inj {a b : Nat} (h : natDigits a = natDigits b) : a = b := by
  have := congrArg digitsVal h
  rwa [digitsVal_natDigits, digitsVal_natDigits] at this

theorem digitsVal_cons_zero (xs : List Char) : digitsVal ('0' :: xs) = digitsVal xs := by
  show List.foldl _ (10 * 0 + ('0'.toNat - 48)) xs = List.foldl _ 0 xs
  have h0 : (10 * 0 + ('0'.toNat - 48)) = 0 := by decide
  rw [h0]

theorem digitsVal_pad2 (n : Nat) : digitsVal (pad2 n) = n := by
  by_cases h : n < 10
  · rw [pad2, if_pos h, digitsVal_cons_zero, digitsVal_natDigits]
  · rw [pad2, if_neg h, digitsVal_natDigits]

theorem pad2_inj {a b : Nat} (h : pad2 a = pad2 b) : a = b := by
  have := congrArg digitsVal h
  rwa [digitsVal_pad2, digitsVal_pad2] at this

theorem pad2_digits (n : Nat) : ∀ c ∈ pad2 n, c.isDigit = true := by
  intro c hc
  by_cases h : n < 10
  · rw [pad2, if_pos h] at hc
    rcases List.mem_cons.mp hc with hc | hc
    · subst hc; decide
    · exact natDigits_digits n c hc
  · rw [pad2, if_neg h] at hc
    exact natDigits_digits n c hc

theorem takeWhile_all_front (p : Char → Bool) :
    ∀ (ds : List Char), (∀ a ∈ ds, p a = true) →
      ∀ (c : Char) (rest : List Char), p c = false →
        List.takeWhile p (ds ++ c :: rest) = ds
          ∧ List.dropWhile p (ds ++ c :: rest) = c :: rest
  | [], _, c, rest, hc => by
    constructor <;> simp [List.takeWhile, List.dropWhile, hc]
  | d :: ds, h, c, rest, hc => by
    have hd : p d = true := h d (List.mem_cons_self _ _)
    have ih := takeWhile_all_front p ds (fun a ha => h a (List.mem_cons_of_mem _ ha)) c rest hc
    constructor
    · simp [List.takeWhile_cons, hd, ih.1]
    · simp [List.dropWhile_cons, hd, ih.2]

theorem windowSlug_unfold (d : PyDateTime) (p : Option (List Char)) :
    windowSlug d p
      = natDigits d.isoYear ++ '-' :: 'W' :: (pad2 d.isoWeek ++ ':' :: projectKey p) := by
  simp [windowSlug]

theorem windowSlug_inj {d1 d2 : PyDateTime} {p1 p2 : Option (List Char)}
    (h : windowSlug d1 p1 = windowSlug d2 p2) :
    d1.isoYear = d2.isoYear ∧ d1.isoWeek = d2.isoWeek ∧ projectKey p1 = projectKey p2 := by
  rw [windowSlug_unfold, windowSlug_unfold] at h
  have hsplit1 := takeWhile_all_front Char.isDigit (natDigits d1.isoYear)
    (natDigits_digits _) '-' ('W' :: (pad2 d1.isoWeek ++ ':' :: projectKey p1)) (by decide)
  have hsplit2 := takeWhile_all_front Char.isDigit (natDigits d2.isoYear)
    (natDigits_digits _) '-' ('W' :: (pad2 d2.isoWeek ++ ':' :: projectKey p2)) (by decide)
  have hyear : natDigits d1.isoYear = natDigits d2.isoYear := by
    have := congrArg (List.takeWhile Char.isDigit) h
    rwa [hsplit1.1, hsplit2.1] at this
  have hrest : pad2 d1.isoWeek ++ ':' :: projectKey p1
      = pad2 d2.isoWeek ++ ':' :: projectKey p2 := by
    have := congrArg (List.dropWhile Char.isDigit) h
    rw [hsplit1.2, hsplit2.2] at this
    exact congrArg (fun l => List.tail (List.tail l)) this
  have hweek : pad2 d1.isoWeek = pad2 d2.isoWeek := by
    have ht1 := takeWhile_all_front Char.isDigit (pad2 d1.isoWeek)
      (pad2_digits _) ':' (projectKey p1) (by decide)
    have ht2 := takeWhile_all_front Char.isDigit (pad2 d2.isoWeek)
      (pad2_digits _) ':' (projectKey p2) (by decide)
    have := congrArg (List.takeWhile Char.isDigit) hrest
    rwa [ht1.1, ht2.1] at this
  have hproj : projectKey p1 = projectKey p2 := by
    have ht1 := takeWhile_all_front Char.isDigit (pad2 d1.isoWeek)
      (pad2_digits _) ':' (projectKey p1) (by decide)
    have ht2 := takeWhile_all_front Char.isDigit (pad2 d2.isoWeek)
      (pad2_digits _) ':' (projectKey p2) (by decide)
    have := congrArg (List.dropWhile Char.isDigit) hrest
    rw [ht1.2, ht2.2] at this
    exact congrArg List.tail this
  exact ⟨natDigits_inj hyear, pad2_inj hweek, hproj⟩

theorem isDigit_ne_pipe {c : Char} (h : c.isDigit = true) : c ≠ '|' := by
  intro he
  subst he
  simp at h

theorem windowSlug_no_pipe {pr : Option (List Char)} (hp : '|' ∉ projectKey pr)
    (d : PyDateTime) : '|' ∉ windowSlug d pr := by
  rw [windowSlug_unfold]
  intro hmem
  rcases List.mem_append.mp hmem with hy | hr
  · exact isDigit_ne_pipe (natDigits_digits _ _ hy) rfl
  · rcases List.mem_cons.mp hr with he | hr
    · exact absurd he.symm (by decide)
    · rcases List.mem_cons.mp hr with he | hr
      · exact absurd he.symm (by decide)
      · rcases List.mem_append.mp hr with hw | hr
        · exact isDigit_ne_pipe (pad2_digits _ _ hw) rfl
        · rcases List.mem_cons.mp hr with he | hr
          · exact absurd he.symm (by decide)
          · exact hp hr

theorem pipe_split :
    ∀ (a b x y : List Char), '|' ∉ a → '|' ∉ b → a ++ '|' :: x = b ++ '|' :: y →
      a = b ∧ x = y
  | [], [], x, y, _, _, h => by
    simpa using h
  | [], c :: b', x, y, _, hb, h => by
    simp only [List.nil_append, List.cons_append, List.cons.injEq] at h
    exact absurd (h.1 ▸ List.mem_cons_self _ _ : '|' ∈ c :: b') hb
  | c :: a', [], x, y, ha, _, h => by
    simp only [List.nil_append, List.cons_append, List.cons.injEq] at h
    exact absurd (h.1 ▸ List.mem_cons_self _ _ : '|' ∈ c :: a') ha
  | c :: a', d :: b', x, y, ha, hb, h => by
    simp only [List.cons_append, List.cons.injEq] at h
    have ih := pipe_split a' b' x y (fun hm => ha (List.mem_cons_of_mem _ hm))
      (fun hm => hb (List.mem_cons_of_mem _ hm)) h.2
    exact ⟨by rw [h.1, ih.1], ih.2⟩

theorem seenKey_window_eq {w1 w2 t1 t2 : List Char} (h1 : '|' ∉ w1) (h2 : '|' ∉ w2)
    (h : seenKey w1 t1 = seenKey w2 t2) : w1 = w2 := by
  have h' : w1 ++ '|' :: pyNormalize t1 = w2 ++ '|' :: pyNormalize t2 := by
    simpa [seenKey] using h
  exact (pipe_split w1 w2 (pyNormalize t1) (pyNormalize t2) h1 h2 h').1

theorem windowSlug_ne {d1 d2 : PyDateTime} {p1 p2 : Option (List Char)}
    (hdiff : projectKey p1 ≠ projectKey p2
      ∨ (d1.isoYear, d1.isoWeek) ≠ (d2.isoYear, d2.isoWeek)) :
    windowSlug d1 p1 ≠ windowSlug d2 p2 := by
  intro h
  obtain ⟨hy, hw, hk⟩ := windowSlug_inj h
  rcases hdiff with hd | hd
  · exact hd hk
  · exact hd (by rw [hy, hw])

/-- Two tracker states agreeing on membership of every key of the call's
window produce the same summary. -/
theorem processUpdate_fst_congr (seenA seenB : List (List Char)) (now : PyDateTime)
    (newId : List Char) (sub : Submission)
    (h : ∀ t, seenKey (windowSlug now sub.project) t ∈ seenA
      ↔ seenKey (windowSlug now sub.project) t ∈ seenB) :
    (processUpdate seenA now newId sub).1 = (processUpdate seenB now newId sub).1 := by
  have hg := acceptNew_congr2 (windowSlug now sub.project) (windowSlug now sub.project)
    (generateMacroTasks (splitSentences (pyStrip sub.update))) seenA seenB h
  have ho := acceptNew_congr2 (windowSlug now sub.project) (windowSlug now sub.project)
    (generateOverlookedTasks (splitSentences (pyStrip sub.update)) sub.project) _ _ hg.2
  simp only [processUpdate, acceptedTasks]
  rw [hg.1, ho.1]

/-- A fresh-state call does not depend on the window: two fresh calls with the
same update text produce the same generated list, and with the same project
also the same overlooked list. -/
theorem processUpdate_fresh_window (now1 now2 : PyDateTime) (id1 id2 : List Char)
    (sub1 sub2 : Submission) (hu : sub1.update = sub2.update) :
    (processUpdate [] now2 id2 sub2).1.generatedTasks
      = (processUpdate [] now1 id1 sub1).1.generatedTasks
    ∧ (sub1.project = sub2.project →
        (processUpdate [] now2 id2 sub2).1.overlookedTasks
          = (processUpdate [] now1 id1 sub1).1.overlookedTasks) := by
  have hgc : generateMacroTasks (splitSentences (pyStrip sub2.update))
      = generateMacroTasks (splitSentences (pyStrip sub1.update)) := by rw [hu]
  have hfresh := acceptNew_congr2 (windowSlug now2 sub2.project) (windowSlug now1 sub1.project)
    (generateMacroTasks (splitSentences (pyStrip sub1.update))) [] [] (fun t => by simp)
  constructor
  · simp only [processUpdate, acceptedTasks]
    rw [hgc, hfresh.1]
  · intro hpj
    have hoc : generateOverlookedTasks (splitSentences (pyStrip sub2.update)) sub2.project
        = generateOverlookedTasks (splitSentences (pyStrip sub1.update)) sub1.project := by
      rw [hu, hpj]
    have ho := acceptNew_congr2 (windowSlug now2 sub2.project) (windowSlug now1 sub1.project)
      (generateOverlookedTasks (splitSentences (pyStrip sub1.update)) sub1.project)
      _ _ hfresh.2
    simp only [processUpdate, acceptedTasks]
    rw [hgc, hoc, ho.1, hpj]

/-- C3 fails as frozen: the dedup key is `window ++ "|" ++ normalized-task`,
so a project containing `|` makes keys of two different windows collide. The
update `"Deliver alpha beta gamma. Deliver x|deliver alpha beta gamma."`
submitted for project `proj` and then for project `proj|deliver x` in the
same ISO week derives the task `"Deliver alpha beta gamma."` in both calls;
the first call accepts it, but the second summary suppresses it even though
the normalized projects differ. -/
theorem C3_counterexample :
    projectKey (some ( "proj".data )) ≠ projectKey (some ( "proj|deliver x".data ))
    ∧ ( "Deliver alpha beta gamma.".data )
        ∈ (processUpdate [] ⟨2024, 5, 0⟩ ( "i1".data )
            { project := some ( "proj".data ), context := none,
              activityType := .campaignExecution,
              update := ( "Deliver alpha beta gamma. Deliver x|deliver alpha beta gamma.".data ) }).1.generatedTasks
    ∧ ( "Deliver alpha beta gamma.".data )
        ∈ generateMacroTasks (splitSentences (pyStrip
            ( "Deliver alpha beta gamma. Deliver x|deliver alpha beta gamma.".data )))
    ∧ ( "Deliver alpha beta gamma.".data )
        ∉ (processUpdate
            (processUpdate [] ⟨2024, 5, 0⟩ ( "i1".data )
              { project := some ( "proj".data ), context := none,
                activityType := .campaignExecution,
                update := ( "Deliver alpha beta gamma. Deliver x|deliver alpha beta gamma.".data ) }).2
            ⟨2024, 5, 1⟩ ( "i2".data )
            { project := some ( "proj|deliver x".data ), context := none,
              activityType := .campaignExecution,
              update := ( "Deliver alpha beta gamma. Deliver x|deliver alpha beta gamma.".data ) }).1.generatedTasks
    ∧ ( "Deliver alpha beta gamma.".data )
        ∉ (processUpdate
            (processUpdate [] ⟨2024, 5, 0⟩ ( "i1".data )
              { project := some ( "proj".data ), context := none,
                activityType := .campaignExecution,
                update := ( "Deliver alpha beta gamma. Deliver x|deliver alpha beta gamma.".data ) }).2
            ⟨2024, 5, 1⟩ ( "i2".data )
            { project := some ( "proj|deliver x".data ), context := none,
              activityType := .campaignExecution,
              update := ( "Deliver alpha beta gamma. Deliver x|deliver alpha beta gamma.".data ) }).1.overlookedTasks := by
  decide

/-- C3 amended: provided no project's normalized key contains the `|`
separator, deduplication is scoped to a single (ISO-week, project) window:
after a first call on a fresh tracker, a second call in a different window
(different normalized project or different ISO week) produces exactly the
summary a fresh tracker would produce — nothing is deduplicated across
windows — and with identical update text the second call's generated list
(and, for identical projects, its overlooked list) equals the first call's,
i.e. every shared derived sentence is accepted both times. -/
theorem C3_cross_window_amended (now1 now2 : PyDateTime) (id1 id2 : List Char)
    (sub1 sub2 : Submission)
    (hp1 : '|' ∉ projectKey sub1.project) (hp2 : '|' ∉ projectKey sub2.project)
    (hdiff : projectKey sub1.project ≠ projectKey sub2.project
      ∨ (now1.isoYear, now1.isoWeek) ≠ (now2.isoYear, now2.isoWeek)) :
    (processUpdate (processUpdate [] now1 id1 sub1).2 now2 id2 sub2).1
      = (processUpdate [] now2 id2 sub2).1
    ∧ (sub1.update = sub2.update →
        (processUpdate (processUpdate [] now1 id1 sub1).2 now2 id2 sub2).1.generatedTasks
          = (processUpdate [] now1 id1 sub1).1.generatedTasks)
    ∧ (sub1.update = sub2.update → sub1.project = sub2.project →
        (processUpdate (processUpdate [] now1 id1 sub1).2 now2 id2 sub2).1.overlookedTasks
          = (processUpdate [] now1 id1 sub1).1.overlookedTasks) := by
  have hw12 : windowSlug now1 sub1.project ≠ windowSlug now2 sub2.project :=
    windowSlug_ne hdiff
  have hseen : (processUpdate [] now1 id1 sub1).2
      = (acceptNew (windowSlug now1 sub1.project)
          (acceptNew (windowSlug now1 sub1.project) []
            (generateMacroTasks (splitSentences (pyStrip sub1.update)))).2
          (generateOverlookedTasks (splitSentences (pyStrip sub1.update)) sub1.project)).2 :=
    rfl
  have hnotin : ∀ t, seenKey (windowSlug now2 sub2.project) t
      ∉ (processUpdate [] now1 id1 sub1).2 := by
    intro t ht
    rw [hseen] at ht
    have hkey : ∀ c : List Char,
        seenKey (windowSlug now2 sub2.project) t = seenKey (windowSlug now1 sub1.project) c
          → False := by
      intro c he
      exact hw12 (seenKey_window_eq (windowSlug_no_pipe hp2 now2)
        (windowSlug_no_pipe hp1 now1) he).symm
    rcases acceptNew_mem_src _ _ _ _ ht with hin | ⟨c, _, he⟩
    · rcases acceptNew_mem_src _ _ _ _ hin with hnil | ⟨c, _, he⟩
      · exact List.not_mem_nil _ hnil
      · exact hkey c he
    · exact hkey c he
  have hiff : ∀ t, (seenKey (windowSlug now2 sub2.project) t
      ∈ (processUpdate [] now1 id1 sub1).2
        ↔ seenKey (windowSlug now2 sub2.project) t ∈ ([] : List (List Char))) := by
    intro t
    simp [hnotin t]
  have hmain := processUpdate_fst_congr (processUpdate [] now1 id1 sub1).2 [] now2 id2 sub2 hiff
  refine ⟨hmain, ?_, ?_⟩
  · intro hu
    rw [congrArg Summary.generatedTasks hmain]
    exact (processUpdate_fresh_window now1 now2 id1 id2 sub1 sub2 hu).1
  · intro hu hpj
    rw [congrArg Summary.overlookedTasks hmain]
    exact (processUpdate_fresh_window now1 now2 id1 id2 sub1 sub2 hu).2 hpj

/-- Witness for the amended C3: same submission in two different ISO weeks. -/
theorem C3_cross_window_amended_witness :
    (processUpdate
        (processUpdate [] ⟨2024, 5, 0⟩ ( "a".data )
          { project := some ( "Atlas".data ), context := none,
            activityType := .campaignExecution,
            update := ( "Lead the Q3 rollout across three regions.".data ) }).2
        ⟨2024, 6, 0⟩ ( "b".data )
        { project := some ( "Atlas".data ), context := none,
          activityType := .campaignExecution,
          update := ( "Lead the Q3 rollout across three regions.".data ) }).1
      = (processUpdate [] ⟨2024, 6, 0⟩ ( "b".data )
          { project := some ( "Atlas".data ), context := none,
            activityType := .campaignExecution,
            update := ( "Lead the Q3 rollout across three regions.".data ) }).1
    ∧ (processUpdate
          (processUpdate [] ⟨2024, 5, 0⟩ ( "a".data )
            { project := some ( "Atlas".data ), context := none,
              activityType := .campaignExecution,
              update := ( "Lead the Q3 rollout across three regions.".data ) }).2
          ⟨2024, 6, 0⟩ ( "b".data )
          { project := some ( "Atlas".data ), context := none,
            activityType := .campaignExecution,
            update := ( "Lead the Q3 rollout across three regions.".data ) }).1.generatedTasks
        = (processUpdate [] ⟨2024, 5, 0⟩ ( "a".data )
            { project := some ( "Atlas".data ), context := none,
              activityType := .campaignExecution,
              update := ( "Lead the Q3 rollout across three regions.".data ) }).1.generatedTasks
    ∧ (processUpdate
          (processUpdate [] ⟨2024, 5, 0⟩ ( "a".data )
            { project := some ( "Atlas".data ), context := none,
              activityType := .campaignExecution,
              update := ( "Lead the Q3 rollout across three regions.".data ) }).2
          ⟨2024, 6, 0⟩ ( "b".data )
          { project := some ( "Atlas".data ), context := none,
            activityType := .campaignExecution,
            update := ( "Lead the Q3 rollout across three regions.".data ) }).1.overlookedTasks
        = (processUpdate [] ⟨2024, 5, 0⟩ ( "a".data )
            { project := some ( "Atlas".data ), context := none,
              activityType := .campaignExecution,
              update := ( "Lead the Q3 rollout across three regions.".data ) }).1.overlookedTasks := by
  have h := C3_cross_window_amended ⟨2024, 5, 0⟩ ⟨2024, 6, 0⟩ ( "a".data ) ( "b".data )
    { project := some ( "Atlas".data ), context := none,
      activityType := .campaignExecution,
      update := ( "Lead the Q3 rollout across three regions.".data ) }
    { project := some ( "Atlas".data ), context := none,
      activityType := .campaignExecution,
      update := ( "Lead the Q3 rollout across three regions.".data ) }
    (by decide) (by decide) (Or.inr (by decide))
  exact ⟨h.1, h.2.1 rfl, h.2.2 rfl rfl⟩

/-! ### JSON round trip (C5) -/

theorem hexVal_hexDigitChar {v : Nat} (h : v < 16) : hexVal (hexDigitChar v) = some v := by
  interval_cases v <;> decide

theorem parseJStrGo_step (f : Nat) (c : Char) (tail : List Char) :
    parseJStrGo (f + 1) (escapeChar c ++ tail)
      = (parseJStrGo f tail).map fun p => (c :: p.1, p.2) := by
  by_cases h1 : c = '"'
  · subst h1; rfl
  by_cases h2 : c = '\\'
  · subst h2; rfl
  by_cases h3 : c = '\n'
  · subst h3; rfl
  by_cases h4 : c = '\r'
  · subst h4; rfl
  by_cases h5 : c = '\t'
  · subst h5; rfl
  by_cases h6 : c = '\x08'
  · subst h6; rfl
  by_cases h7 : c = '\x0c'
  · subst h7; rfl
  by_cases h8 : c.toNat < 32
  · have hd1 : c.toNat / 16 < 16 := by omega
    have hd2 : c.toNat % 16 < 16 := Nat.mod_lt _ (by omega)
    have henc : escapeChar c
        = ['\\', 'u', '0', '0', hexDigitChar (c.toNat / 16), hexDigitChar (c.toNat % 16)] := by
      rw [escapeChar, if_neg h1, if_neg h2, if_neg h3, if_neg h4, if_neg h5, if_neg h6,
        if_neg h7, if_pos h8]
    have hn : ((0 * 16 + 0) * 16 + c.toNat / 16) * 16 + c.toNat % 16 = c.toNat := by omega
    have e0 : hexVal '0' = some 0 := by decide
    rw [henc]
    simp only [parseJStrGo, List.cons_append, List.append_eq, List.nil_append, ite_true,
      eq_self_iff_true, e0, hexVal_hexDigitChar hd1, hexVal_hexDigitChar hd2]
    simp only [hn, Char.ofNat_toNat]
    rw [if_neg (show ¬('\\' = '"') from by decide)]
  · have henc : escapeChar c = [c] := by
      rw [escapeChar, if_neg h1, if_neg h2, if_neg h3, if_neg h4, if_neg h5, if_neg h6,
        if_neg h7, if_neg h8]
    rw [henc]
    show parseJStrGo (f + 1) (c :: tail) = _
    simp only [parseJStrGo, if_neg h1, if_neg h2, if_neg h8]

theorem parseJStr_escape :
    ∀ (s : List Char) (fuel : Nat) (rest : List Char), s.length < fuel →
      parseJStrGo fuel (s.flatMap escapeChar ++ '"' :: rest) = some (s, rest)
  | [], fuel, rest, h => by
    obtain ⟨f, rfl⟩ : ∃ f, fuel = f + 1 := ⟨fuel - 1, by omega⟩
    rfl
  | c :: s', fuel, rest, h => by
    obtain ⟨f, rfl⟩ : ∃ f, fuel = f + 1 := ⟨fuel - 1, by omega⟩
    rw [show (c :: s').flatMap escapeChar = escapeChar c ++ s'.flatMap escapeChar from rfl,
      List.append_assoc, parseJStrGo_step,
      parseJStr_escape s' f rest (by simp only [List.length_cons] at h; omega)]
    rfl

theorem le_length_flatMap_escape : ∀ s : List Char, s.length ≤ (s.flatMap escapeChar).length
  | [] => Nat.le_refl 0
  | c :: s' => by
    rw [show (c :: s').flatMap escapeChar = escapeChar c ++ s'.flatMap escapeChar from rfl,
      List.length_append, List.length_cons]
    have h1 : 1 ≤ (escapeChar c).length := by
      rw [escapeChar]
      repeat' split
      all_goals simp
    have h2 := le_length_flatMap_escape s'
    omega

theorem jsonItemsEnc_cons_head (b : List Char) (l' : List (List Char)) :
    ∃ t, jsonItemsEnc (b :: l') = '"' :: t := by
  cases l' with
  | nil => exact ⟨_, rfl⟩
  | cons x xs => exact ⟨_, rfl⟩

theorem parseItems_enc :
    ∀ (l : List (List Char)) (a : List Char) (fuel : Nat) (rest : List Char),
      (jsonItemsEnc (a :: l)).length ≤ fuel →
      parseItemsGo (fuel + 1) (jsonItemsEnc (a :: l) ++ ']' :: rest) = some (a :: l, rest)
  | [], a, fuel, rest, h => by
    have hsingle : jsonItemsEnc [a] = jsonDumpStr a := rfl
    have hlen : a.length < fuel + 1 := by
      have h1 := le_length_flatMap_escape a
      have h2 : (jsonItemsEnc [a]).length = (a.flatMap escapeChar).length + 2 := by
        rw [hsingle, jsonDumpStr]
        simp
      omega
    have hb : (jsonItemsEnc [a]) ++ ']' :: rest
        = '"' :: (a.flatMap escapeChar ++ '"' :: ']' :: rest) := by
      rw [hsingle, jsonDumpStr]
      simp
    rw [hb]
    simp only [parseItemsGo, parseJStr_escape a (fuel + 1) (']' :: rest) hlen]
    rfl
  | b :: l', a, fuel, rest, h => by
    have henc : jsonItemsEnc (a :: b :: l')
        = jsonDumpStr a ++ ( ", ".data ) ++ jsonItemsEnc (b :: l') := rfl
    have hlen2 : (jsonItemsEnc (a :: b :: l')).length
        = (a.flatMap escapeChar).length + 4 + (jsonItemsEnc (b :: l')).length := by
      rw [henc, jsonDumpStr]
      simp
      omega
    have hflat := le_length_flatMap_escape a
    obtain ⟨f, rfl⟩ : ∃ f, fuel = f + 1 := ⟨fuel - 1, by omega⟩
    have hlen : a.length < f + 1 + 1 := by omega
    have hb : (jsonItemsEnc (a :: b :: l')) ++ ']' :: rest
        = '"' :: (a.flatMap escapeChar
            ++ '"' :: ',' :: ' ' :: (jsonItemsEnc (b :: l') ++ ']' :: rest)) := by
      rw [henc, jsonDumpStr]
      simp
    rw [hb]
    have hrec : (jsonItemsEnc (b :: l')).length ≤ f := by omega
    have hdw : List.dropWhile jsonWs (jsonItemsEnc (b :: l') ++ ']' :: rest)
        = jsonItemsEnc (b :: l') ++ ']' :: rest := by
      obtain ⟨t, ht⟩ := jsonItemsEnc_cons_head b l'
      rw [ht]
      rfl
    simp only [parseItemsGo, parseJStr_escape a (f + 1 + 1) _ hlen]
    show Option.map _ (parseItemsGo (f + 1) (List.dropWhile jsonWs
      (jsonItemsEnc (b :: l') ++ ']' :: rest))) = _
    rw [hdw, parseItems_enc l' b f rest hrec]
    rfl

theorem jsonLoadsArr_cons (y : List Char) (hy : ∃ t, y = '"' :: t) :
    jsonLoadsArr ('[' :: y)
      = match parseItemsGo (y.length + 1) y with
        | some (v, r) => if (r.dropWhile jsonWs).isEmpty then some v else none
        | none => none := by
  obtain ⟨t, rfl⟩ := hy
  rfl

/-- `json.loads` inverts `json.dumps` on every list of strings. -/
theorem jsonLoads_dumps : ∀ (l : List (List Char)), jsonLoadsArr (jsonDumpsList l) = some l
  | [] => rfl
  | a :: l' => by
    obtain ⟨t, ht⟩ := jsonItemsEnc_cons_head a l'
    have hy : ∃ u, jsonItemsEnc (a :: l') ++ [']'] = '"' :: u :=
      ⟨t ++ [']'], by rw [ht]; rfl⟩
    have h1 := jsonLoadsArr_cons (jsonItemsEnc (a :: l') ++ [']']) hy
    rw [jsonDumpsList, h1]
    have hlen : (jsonItemsEnc (a :: l') ++ [']']).length
        = (jsonItemsEnc (a :: l')).length + 1 := by simp
    rw [hlen]
    have hitems := parseItems_enc l' a ((jsonItemsEnc (a :: l')).length + 1) []
      (by omega)
    rw [hitems]
    rfl

theorem jsonLoadsTasks_dumps (l : List (List Char)) :
    jsonLoadsTasks (jsonDumpsList l) = some l := by
  rw [show jsonLoadsTasks (jsonDumpsList l) = jsonLoadsArr (jsonDumpsList l) from rfl,
    jsonLoads_dumps]

theorem activityTypeOfValue_value (t : ActivityType) :
    activityTypeOfValue (ActivityType.value t) = some t := by
  cases t <;> rfl

/-- C5 amended: decoding the encoded log row of a summary reproduces the
summary exactly — identical id, timestamp, project, context, activity type,
excerpt and both task lists in order — provided the optional project and
context are not present-but-empty strings (an empty string is encoded as the
empty column and decodes as absent). `fmt`/`pts` abstract
`datetime.isoformat`/`fromisoformat`; the hypothesis states that the parse
inverts the format on this row's timestamp. -/
theorem C5_roundtrip_amended (pts : List Char → Option PyDateTime)
    (fmt : PyDateTime → List Char) (s : Summary)
    (hts : pts (fmt s.createdAt) = some s.createdAt)
    (hp : s.project ≠ some []) (hc : s.context ≠ some []) :
    rowToSummary pts (encodeRow fmt s) = some s := by
  obtain ⟨sid, ca, proj, ctx, aty, ex, gen, ovl⟩ := s
  have hv : (ActivityType.value aty).isEmpty = false := by cases aty <;> rfl
  simp only [encodeRow, rowToSummary] at hts ⊢
  simp only [hts, jsonLoadsTasks_dumps, hv, activityTypeOfValue_value, Bool.false_eq_true,
    if_false]
  rcases proj with _ | p
  · rcases ctx with _ | c
    · rfl
    · cases c with
      | nil => exact absurd rfl hc
      | cons x xs => rfl
  · cases p with
    | nil => exact absurd rfl hp
    | cons x xs =>
      rcases ctx with _ | c
      · rfl
      · cases c with
        | nil => exact absurd rfl hc
        | cons y ys => rfl

/-- C5 fails as frozen: a summary whose project is the present-but-empty
string is encoded as an empty project column (`project or ""`), which decodes
back as an absent project, so the decoded summary is not identical. -/
theorem C5_counterexample :
    rowToSummary (fun _ => some ⟨2024, 1, 0⟩)
      (encodeRow (fun _ => ( "ts".data ))
        { sid := ( "i".data ), createdAt := ⟨2024, 1, 0⟩, project := some [], context := none,
          activityType := .campaignExecution, inputExcerpt := [], generatedTasks := [],
          overlookedTasks := [] })
      = some { sid := ( "i".data ), createdAt := ⟨2024, 1, 0⟩, project := none,
               context := none, activityType := .campaignExecution, inputExcerpt := [],
               generatedTasks := [], overlookedTasks := [] }
    ∧ ({ sid := ( "i".data ), createdAt := ⟨2024, 1, 0⟩, project := none, context := none,
         activityType := .campaignExecution, inputExcerpt := [], generatedTasks := [],
         overlookedTasks := [] } : Summary)
        ≠ { sid := ( "i".data ), createdAt := ⟨2024, 1, 0⟩, project := some [],
            context := none, activityType := .campaignExecution, inputExcerpt := [],
            generatedTasks := [], overlookedTasks := [] } := by
  constructor
  · rfl
  · decide

/-- Witness for the amended C5 at a concrete summary with tasks needing JSON
escaping. -/
theorem C5_roundtrip_amended_witness :
    rowToSummary (fun _ => some ⟨2024, 1, 7⟩)
      (encodeRow (fun _ => ( "ts".data ))
        { sid := ( "i2".data ), createdAt := ⟨2024, 1, 7⟩, project := some ( "Atlas".data ),
          context := none, activityType := .productDesign, inputExcerpt := ( "x".data ),
          generatedTasks := [ "Lead it now.".data, [ '"', '\\', '\t' ] ],
          overlookedTasks := [ "Check".data ] })
      = some { sid := ( "i2".data ), createdAt := ⟨2024, 1, 7⟩,
               project := some ( "Atlas".data ), context := none,
               activityType := .productDesign, inputExcerpt := ( "x".data ),
               generatedTasks := [ "Lead it now.".data, [ '"', '\\', '\t' ] ],
               overlookedTasks := [ "Check".data ] } :=
  C5_roundtrip_amended (fun _ => some ⟨2024, 1, 7⟩) (fun _ => ( "ts".data ))
    { sid := ( "i2".data ), createdAt := ⟨2024, 1, 7⟩, project := some ( "Atlas".data ),
      context := none, activityType := .productDesign, inputExcerpt := ( "x".data ),
      generatedTasks := [ "Lead it now.".data, [ '"', '\\', '\t' ] ],
      overlookedTasks := [ "Check".data ] }
    rfl (by decide) (by decide)

end WeeklyTasks
